import Mathlib

/-!
# Verification of the fed_monitor metrics and alert engine

This file gives a shallow embedding of the core logic of the fed_monitor
repository (src/alerts.py, src/metrics.py, src/database.py) and proves or
refutes the specified properties of that logic.

Modelling conventions:
* pandas/numpy float values are modelled exactly by the type EVal: a rational
  number, a signed infinity, or NaN.  NaN doubles as the "missing value"
  marker, exactly as in pandas.  Arithmetic on EVal follows the IEEE rules for
  the special values (the sign of floating zero is ignored: the data model
  only produces positive zeros).
* DataFrames are modelled by DFrame: an ordered list of dates (integer day
  numbers) plus an association list of named columns aligned with the dates.
* Python's per-process salted string hash is modelled as an explicit
  parameter pyHash of the functions that call it: a fresh process means a
  fresh, arbitrary hash function.
* The SQLite-backed alert-state store is modelled as an association list from
  alert id to (state, last value); timestamps are omitted since no examined
  behaviour reads them.
-/

namespace FedMonitor

/-- Exact model of a pandas/numpy float cell: a rational, a signed infinity,
or NaN (which is also the missing-value marker). -/
inductive EVal where
  | num (q : ℚ)
  | pinf
  | ninf
  | nan
deriving DecidableEq

/-- pandas isna: only NaN is missing (infinities are present values). -/
def EVal.isNA : EVal → Bool
  | .nan => true
  | _ => false

/-- IEEE negation. -/
def EVal.neg : EVal → EVal
  | .num q => .num (-q)
  | .pinf => .ninf
  | .ninf => .pinf
  | .nan => .nan

/-- IEEE addition (inf + -inf = NaN). -/
def EVal.add : EVal → EVal → EVal
  | .nan, _ => .nan
  | .num _, .nan => .nan
  | .pinf, .nan => .nan
  | .ninf, .nan => .nan
  | .num a, .num b => .num (a + b)
  | .num _, .pinf => .pinf
  | .num _, .ninf => .ninf
  | .pinf, .num _ => .pinf
  | .ninf, .num _ => .ninf
  | .pinf, .pinf => .pinf
  | .ninf, .ninf => .ninf
  | .pinf, .ninf => .nan
  | .ninf, .pinf => .nan

/-- IEEE subtraction. -/
def EVal.sub (a b : EVal) : EVal := a.add b.neg

/-- IEEE multiplication (inf * 0 = NaN). -/
def EVal.mul : EVal → EVal → EVal
  | .nan, _ => .nan
  | .num _, .nan => .nan
  | .pinf, .nan => .nan
  | .ninf, .nan => .nan
  | .num a, .num b => .num (a * b)
  | .num a, .pinf => if 0 < a then .pinf else if a < 0 then .ninf else .nan
  | .num a, .ninf => if 0 < a then .ninf else if a < 0 then .pinf else .nan
  | .pinf, .num b => if 0 < b then .pinf else if b < 0 then .ninf else .nan
  | .ninf, .num b => if 0 < b then .ninf else if b < 0 then .pinf else .nan
  | .pinf, .pinf => .pinf
  | .ninf, .ninf => .pinf
  | .pinf, .ninf => .ninf
  | .ninf, .pinf => .ninf

/-- IEEE division as numpy performs it: finite/0 is a signed infinity,
0/0 and inf/inf are NaN, finite/inf is 0.  (Python-level true division is
different: it raises on a zero divisor; see pyEval below.) -/
def EVal.div : EVal → EVal → EVal
  | .nan, _ => .nan
  | .num _, .nan => .nan
  | .pinf, .nan => .nan
  | .ninf, .nan => .nan
  | .num a, .num b =>
      if b = 0 then (if a = 0 then .nan else if 0 < a then .pinf else .ninf)
      else .num (a / b)
  | .num _, .pinf => .num 0
  | .num _, .ninf => .num 0
  | .pinf, .num b => if 0 ≤ b then .pinf else .ninf
  | .ninf, .num b => if 0 ≤ b then .ninf else .pinf
  | .pinf, .pinf => .nan
  | .pinf, .ninf => .nan
  | .ninf, .pinf => .nan
  | .ninf, .ninf => .nan

/-- IEEE strict order: any comparison with NaN is false; -inf < finite < inf. -/
def EVal.lt : EVal → EVal → Bool
  | .nan, _ => false
  | _, .nan => false
  | .num a, .num b => decide (a < b)
  | .num _, .pinf => true
  | .num _, .ninf => false
  | .pinf, .num _ => false
  | .ninf, .num _ => true
  | .pinf, .pinf => false
  | .ninf, .ninf => false
  | .pinf, .ninf => false
  | .ninf, .pinf => true

/-- IEEE non-strict order (false whenever NaN is involved). -/
def EVal.le (a b : EVal) : Bool :=
  if a.isNA || b.isNA then false else decide (a = b) || a.lt b

/-- IEEE equality: NaN compares unequal to everything, itself included. -/
def EVal.ieeeEq (a b : EVal) : Bool :=
  if a.isNA || b.isNA then false else decide (a = b)

/-- IEEE absolute value. -/
def EVal.iabs : EVal → EVal
  | .num q => .num |q|
  | .pinf => .pinf
  | .ninf => .pinf
  | .nan => .nan

/-! ## Alert identity (src/alerts.py, make_alert_id) -/

/-- One configured alert, as read from the alerts section of the YAML
configuration (src/alerts.py consumes it as a dict). -/
structure AlertDef where
  key : String
  rule : String
  severity : String
  note : String
deriving DecidableEq

/-- Embedding of make_alert_id (src/alerts.py lines 18-24):
the id string is key, severity and the process hash of the rule text reduced
modulo 10000.  CPython's built-in hash on strings is salted per process, so
it appears here as the explicit parameter pyHash; Int emod matches Python's
nonnegative remainder for a positive modulus. -/
def make_alert_id (pyHash : String → Int) (alert_def : AlertDef) : String :=
  alert_def.key ++ ":" ++ alert_def.severity ++ ":" ++ toString (pyHash alert_def.rule % 10000)

/-! ## Alert state tracking (src/database.py, src/alerts.py) -/

/-- The two persisted alert states. -/
inductive AState where
  | ok
  | breach
deriving DecidableEq

/-- The alert_state table: alert id to (state, last_value). -/
abbrev AlertStore := List (String × AState × Option EVal)

/-- Set-or-insert on the alert_state table (SQL UPDATE if the row exists,
INSERT otherwise). -/
def storeSet : AlertStore → String → AState × Option EVal → AlertStore
  | [], aid, row => [(aid, row)]
  | (k, r) :: rest, aid, row =>
      if k = aid then (aid, row) :: rest else (k, r) :: storeSet rest aid row

/-- The current persisted state of an alert: the stored row's state, or ok
when no row exists yet (src/database.py line 326). -/
def prevStateOf (store : AlertStore) (alert_id : String) : AState :=
  match store.lookup alert_id with
  | some row => row.1
  | none => AState.ok

/-- Embedding of update_alert_state (src/database.py lines 312-345): read the
current state (default ok when the row is absent), write the new state and
value through unconditionally, and return the previous state when it differs
from the new one, otherwise nothing. -/
def update_alert_state (store : AlertStore) (alert_id : String) (state : AState)
    (value : Option EVal) : Option AState × AlertStore :=
  (if prevStateOf store alert_id ≠ state then some (prevStateOf store alert_id) else none,
   storeSet store alert_id (state, value))

/-- One row of the alerts_log table
(log_alert_transition, src/database.py lines 348-363). -/
structure LogEntry where
  alert_id : String
  severity : String
  state_from : AState
  state_to : AState
  value : Option EVal
  note : String
deriving DecidableEq

/-- The severity filter of check_alerts_with_state: Python skips the alert
only when the filter list is truthy (non-empty) and does not contain the
severity. -/
def skipAlert (severity_filter : Option (List String)) (severity : String) : Bool :=
  match severity_filter with
  | none => false
  | some l => if l.isEmpty then false else ¬ (l.contains severity)

/-- The loop body of check_alerts_with_state (src/alerts.py lines 197-237)
for one non-filtered alert: evaluate it, compute the new state, write the
state through, and on a detected transition append one transition log entry
and, only when the new state is breach, one notification callback invocation.
Returns the updated store, the log entries appended (0 or 1), and the alert
ids handed to the callback (0 or 1). -/
def passStep (pyHash : String → Int) (evalr : AlertDef → Bool × Option EVal)
    (store : AlertStore) (a : AlertDef) : AlertStore × List LogEntry × List String :=
  let tv := evalr a
  let aid := make_alert_id pyHash a
  let new_state := if tv.1 then AState.breach else AState.ok
  let pr := update_alert_state store aid new_state tv.2
  match pr.1 with
  | none => (pr.2, [], [])
  | some prev =>
      let entry : LogEntry := ⟨aid, a.severity, prev, new_state, tv.2, a.note⟩
      if new_state = AState.breach then (pr.2, [entry], [aid])
      else (pr.2, [entry], [])

/-- Embedding of check_alerts_with_state (src/alerts.py lines 176-239) for
one evaluation pass.  The metrics panel is computed once per pass, so the
evaluation of one alert definition against it is abstracted as the function
evalr giving the triggered flag and the context value of that alert.  Returns
the updated store, the transition log entries appended during the pass (in
order), and the alert ids passed to the notification callback (in order). -/
def check_alerts_with_state (pyHash : String → Int)
    (evalr : AlertDef → Bool × Option EVal)
    (severity_filter : Option (List String)) :
    AlertStore → List AlertDef → AlertStore × List LogEntry × List String
  | store, [] => (store, [], [])
  | store, a :: rest =>
      if skipAlert severity_filter a.severity then
        check_alerts_with_state pyHash evalr severity_filter store rest
      else
        let s := passStep pyHash evalr store a
        let r := check_alerts_with_state pyHash evalr severity_filter s.1 rest
        (r.1, s.2.1 ++ r.2.1, s.2.2 ++ r.2.2)

/-- Several consecutive evaluation passes over a single alert, one triggered
flag per pass, accumulating all transition log entries and all notification
callback invocations. -/
def runPasses (pyHash : String → Int) (a : AlertDef) (flags : List Bool)
    (store : AlertStore) : AlertStore × List LogEntry × List String :=
  flags.foldl
    (fun acc b =>
      let r := check_alerts_with_state pyHash (fun _ => (b, none)) none acc.1 [a]
      (r.1, acc.2.1 ++ r.2.1, acc.2.2 ++ r.2.2))
    (store, [], [])

/-- Strings of distinct lengths used as pairwise distinct rule texts. -/
def strN (n : Nat) : String := String.mk (List.replicate n 'a')

/-! ## Rule evaluation (src/alerts.py, evaluate_rule)

evaluate_rule calls the CPython builtin eval on the rule text with the
globals dict replaced by a dict whose only entry is a reduced __builtins__
(abs, min, max, True, False) and with the alert context as locals.  The
fragment of CPython expression semantics relevant to the claims is embedded
here: name resolution (locals, then the reduced builtins), attribute access
(which CPython resolves on the object itself and which is NOT restricted by
replacing __builtins__), calls, arithmetic, comparisons and boolean
operators.  Python's true division raises ZeroDivisionError on a zero
divisor.  Numbers are modelled exactly (ints and floats unified as EVal). -/

/-- Arithmetic operators available in a rule expression. -/
inductive PyOp where
  | add
  | sub
  | mul
  | div
deriving DecidableEq

/-- Comparison operators available in a rule expression. -/
inductive PyCmp where
  | lt
  | le
  | gt
  | ge
  | eq
  | ne
deriving DecidableEq

mutual
/-- A CPython runtime value reachable from a rule expression. -/
inductive PyVal where
  | bool (b : Bool)
  | num (v : EVal)
  | str (s : String)
  | tuple (elems : PyValList)
  | pytype (name : String)
  | builtin (name : String)

/-- A list of CPython values. -/
inductive PyValList where
  | nil
  | cons (head : PyVal) (tail : PyValList)
end

mutual
/-- A parsed CPython expression: what eval compiles the rule text into. -/
inductive PyExpr where
  | const (v : PyVal)
  | name (x : String)
  | attr (e : PyExpr) (field : String)
  | call (f : PyExpr) (args : PyExprList)
  | binop (op : PyOp) (a b : PyExpr)
  | cmp (op : PyCmp) (a b : PyExpr)
  | boolAnd (a b : PyExpr)
  | boolOr (a b : PyExpr)
  | boolNot (e : PyExpr)
  | tupleLit (elems : PyExprList)

/-- A list of parsed CPython expressions (argument lists, tuple displays). -/
inductive PyExprList where
  | nil
  | cons (head : PyExpr) (tail : PyExprList)
end

/-- The exceptions the embedded evaluator can raise.  evaluate_rule catches
NameError specially and every other exception generically. -/
inductive PyErr where
  | nameError (x : String)
  | typeError
  | attributeError
  | zeroDivisionError
deriving DecidableEq

/-- Python truthiness, as applied by the bool(...) conversion around eval. -/
def truthy : PyVal → Bool
  | .bool b => b
  | .num (.num q) => decide (q ≠ 0)
  | .num _ => true
  | .str s => decide (s ≠ "")
  | .tuple .nil => false
  | .tuple (.cons _ _) => true
  | .pytype _ => true
  | .builtin _ => true

/-- Numeric coercion: Python bools are ints, ints and floats are numbers. -/
def toNum : PyVal → Option EVal
  | .bool b => some (.num (if b then 1 else 0))
  | .num v => some v
  | _ => none

/-- The reduced __builtins__ dict installed by evaluate_rule
(src/alerts.py lines 40-46). -/
def safeBuiltinLookup : String → Option PyVal
  | "abs" => some (.builtin "abs")
  | "min" => some (.builtin "min")
  | "max" => some (.builtin "max")
  | "True" => some (.bool true)
  | "False" => some (.bool false)
  | _ => none

/-- CPython name resolution under eval(rule, globals-with-reduced-builtins,
context): the context locals first, then the reduced builtins, else
NameError. -/
def pyLookup (ctx : List (String × EVal)) (x : String) : Except PyErr PyVal :=
  match ctx.lookup x with
  | some v => .ok (.num v)
  | none =>
      match safeBuiltinLookup x with
      | some v => .ok v
      | none => .error (.nameError x)

/-- CPython attribute access: resolved on the object, independently of the
__builtins__ replacement.  Only the fragment reachable in the refutation is
spelled out; every other attribute is an AttributeError. -/
def getattrPy (v : PyVal) (field : String) : Except PyErr PyVal :=
  match v, field with
  | .tuple _, "__class__" => .ok (.pytype "tuple")
  | .pytype n, "__name__" => .ok (.str n)
  | _, _ => .error .attributeError

/-- Python arithmetic on numbers; a zero divisor raises ZeroDivisionError
(true division, unlike the numpy column arithmetic of the metrics engine). -/
def pyArith (op : PyOp) (a b : PyVal) : Except PyErr PyVal :=
  match toNum a, toNum b with
  | some x, some y =>
      match op with
      | .add => .ok (.num (x.add y))
      | .sub => .ok (.num (x.sub y))
      | .mul => .ok (.num (x.mul y))
      | .div => if y = EVal.num 0 then .error .zeroDivisionError else .ok (.num (x.div y))
  | _, _ => .error .typeError

mutual
/-- Python equality: numeric across bool/int/float with IEEE NaN semantics,
structural on strings, tuples and the other object kinds, false across
kinds. -/
def pyEq : PyVal → PyVal → Bool
  | .bool a, .bool b => decide (a = b)
  | .bool a, .num w => EVal.ieeeEq (if a then .num 1 else .num 0) w
  | .num v, .bool b => EVal.ieeeEq v (if b then .num 1 else .num 0)
  | .num v, .num w => EVal.ieeeEq v w
  | .str s, .str t => decide (s = t)
  | .tuple s, .tuple t => pyEqList s t
  | .pytype s, .pytype t => decide (s = t)
  | .builtin s, .builtin t => decide (s = t)
  | _, _ => false

/-- Elementwise Python equality of value lists. -/
def pyEqList : PyValList → PyValList → Bool
  | .nil, .nil => true
  | .cons a s, .cons b t => pyEq a b && pyEqList s t
  | _, _ => false
end

/-- Python comparisons: equality is total across kinds, order comparisons
are defined on numbers and raise TypeError elsewhere. -/
def pyCompare (op : PyCmp) (a b : PyVal) : Except PyErr PyVal :=
  match op with
  | .eq => .ok (.bool (pyEq a b))
  | .ne => .ok (.bool (!pyEq a b))
  | _ =>
      match toNum a, toNum b with
      | some x, some y =>
          .ok (.bool (match op with
            | .lt => x.lt y
            | .le => x.le y
            | .gt => y.lt x
            | .ge => y.le x
            | _ => false))
      | _, _ => .error .typeError

/-- Numeric coercion of a whole argument list. -/
def toNums : PyValList → Option (List EVal)
  | .nil => some []
  | .cons a rest =>
      match toNum a, toNums rest with
      | some x, some xs => some (x :: xs)
      | _, _ => none

/-- The builtins min and max on two or more numeric arguments. -/
def pyMinMax (pickSmaller : Bool) (args : PyValList) : Except PyErr PyVal :=
  match args with
  | .cons _ (.cons _ _) =>
      match toNums args with
      | some (x :: xs) =>
          .ok (.num (xs.foldl
            (fun acc y => if (if pickSmaller then y.lt acc else acc.lt y) then y else acc) x))
      | _ => .error .typeError
  | _ => .error .typeError

/-- Calling a value: only the three whitelisted builtins are callable in the
embedded fragment; abs takes one numeric argument. -/
def pyCall (f : PyVal) (args : PyValList) : Except PyErr PyVal :=
  match f with
  | .builtin "abs" =>
      match args with
      | .cons a .nil =>
          match toNum a with
          | some x => .ok (.num x.iabs)
          | none => .error .typeError
      | _ => .error .typeError
  | .builtin "min" => pyMinMax true args
  | .builtin "max" => pyMinMax false args
  | _ => .error .typeError

mutual
/-- The embedded CPython expression evaluator: what eval(rule, restricted
globals, context) computes on the parsed rule. -/
def pyEval (ctx : List (String × EVal)) : PyExpr → Except PyErr PyVal
  | .const v => .ok v
  | .name x => pyLookup ctx x
  | .attr e field =>
      match pyEval ctx e with
      | .ok v => getattrPy v field
      | .error err => .error err
  | .call f args =>
      match pyEval ctx f with
      | .ok fv =>
          match pyEvalList ctx args with
          | .ok avs => pyCall fv avs
          | .error err => .error err
      | .error err => .error err
  | .binop op a b =>
      match pyEval ctx a with
      | .ok av =>
          match pyEval ctx b with
          | .ok bv => pyArith op av bv
          | .error err => .error err
      | .error err => .error err
  | .cmp op a b =>
      match pyEval ctx a with
      | .ok av =>
          match pyEval ctx b with
          | .ok bv => pyCompare op av bv
          | .error err => .error err
      | .error err => .error err
  | .boolAnd a b =>
      match pyEval ctx a with
      | .ok av => if truthy av then pyEval ctx b else .ok av
      | .error err => .error err
  | .boolOr a b =>
      match pyEval ctx a with
      | .ok av => if truthy av then .ok av else pyEval ctx b
      | .error err => .error err
  | .boolNot e =>
      match pyEval ctx e with
      | .ok v => .ok (.bool (!truthy v))
      | .error err => .error err
  | .tupleLit es =>
      match pyEvalList ctx es with
      | .ok vs => .ok (.tuple vs)
      | .error err => .error err

/-- Left-to-right evaluation of an expression list. -/
def pyEvalList (ctx : List (String × EVal)) : PyExprList → Except PyErr PyValList
  | .nil => .ok .nil
  | .cons e es =>
      match pyEval ctx e with
      | .ok v =>
          match pyEvalList ctx es with
          | .ok vs => .ok (.cons v vs)
          | .error err => .error err
      | .error err => .error err
end

/-- Embedding of evaluate_rule (src/alerts.py lines 27-56): evaluate the
parsed rule under the restricted globals and the context locals and convert
to bool; a NameError (missing context variable) yields false silently, any
other exception is logged and also yields false. -/
def evaluate_rule (rule : PyExpr) (context : List (String × EVal)) : Bool :=
  match pyEval context rule with
  | .ok v => truthy v
  | .error _ => false

mutual
/-- Whether a rule expression contains an attribute (member) access node. -/
def usesAttribute : PyExpr → Bool
  | .const _ => false
  | .name _ => false
  | .attr _ _ => true
  | .call f args => usesAttribute f || usesAttributeList args
  | .binop _ a b => usesAttribute a || usesAttribute b
  | .cmp _ a b => usesAttribute a || usesAttribute b
  | .boolAnd a b => usesAttribute a || usesAttribute b
  | .boolOr a b => usesAttribute a || usesAttribute b
  | .boolNot e => usesAttribute e
  | .tupleLit es => usesAttributeList es

/-- Whether any expression of a list contains an attribute access node. -/
def usesAttributeList : PyExprList → Bool
  | .nil => false
  | .cons e es => usesAttribute e || usesAttributeList es
end

/-- The parsed form of the rule text "().__class__.__name__ == 'tuple'":
a classic escape from a builtins-only sandbox through attribute access. -/
def attrEscapeRule : PyExpr :=
  .cmp .eq (.attr (.attr (.tupleLit .nil) "__class__") "__name__") (.const (.str "tuple"))

/-! ## The metrics panel (src/metrics.py)

A pandas DataFrame is modelled as an ordered list of dates (integer day
numbers, the DatetimeIndex) together with an association list of named
columns, each aligned positionally with the date list. -/

/-- A wide date-indexed table: the panel. -/
structure DFrame where
  dates : List Int
  cols : List (String × List EVal)
deriving DecidableEq

/-- Column selection df[name]. -/
def DFrame.getCol (df : DFrame) (name : String) : Option (List EVal) :=
  df.cols.lookup name

/-- Column assignment: overwrite in place when the name exists, else append
a new column at the end, as pandas does. -/
def assocSet : List (String × List EVal) → String → List EVal → List (String × List EVal)
  | [], k, v => [(k, v)]
  | (k', v') :: rest, k, v =>
      if k' = k then (k, v) :: rest else (k', v') :: assocSet rest k v

/-- df[name] = v. -/
def DFrame.setCol (df : DFrame) (name : String) (v : List EVal) : DFrame :=
  ⟨df.dates, assocSet df.cols name v⟩

/-- An arithmetic expression over column names, the grammar pandas
DataFrame.eval accepts for the derived-metric expressions of the
configuration. -/
inductive FExpr where
  | col (name : String)
  | lit (q : ℚ)
  | neg (e : FExpr)
  | add (a b : FExpr)
  | sub (a b : FExpr)
  | mul (a b : FExpr)
  | div (a b : FExpr)
deriving DecidableEq

/-- The column names an expression mentions. -/
def exprVars : FExpr → List String
  | .col n => [n]
  | .lit _ => []
  | .neg e => exprVars e
  | .add a b => exprVars a ++ exprVars b
  | .sub a b => exprVars a ++ exprVars b
  | .mul a b => exprVars a ++ exprVars b
  | .div a b => exprVars a ++ exprVars b

/-- pandas DataFrame.eval: names resolve to the frame's columns, arithmetic
is elementwise numpy arithmetic (division by zero gives infinities, not an
exception), scalars broadcast along the date axis; an unknown column name
raises (modelled as none, caught by calculate_derived). -/
def evalExprDF (df : DFrame) : FExpr → Option (List EVal)
  | .col n => df.getCol n
  | .lit q => some (df.dates.map fun _ => EVal.num q)
  | .neg e => (evalExprDF df e).map (List.map EVal.neg)
  | .add a b =>
      match evalExprDF df a, evalExprDF df b with
      | some x, some y => some (List.zipWith EVal.add x y)
      | _, _ => none
  | .sub a b =>
      match evalExprDF df a, evalExprDF df b with
      | some x, some y => some (List.zipWith EVal.sub x y)
      | _, _ => none
  | .mul a b =>
      match evalExprDF df a, evalExprDF df b with
      | some x, some y => some (List.zipWith EVal.mul x y)
      | _, _ => none
  | .div a b =>
      match evalExprDF df a, evalExprDF df b with
      | some x, some y => some (List.zipWith EVal.div x y)
      | _, _ => none

/-- One derived-metric definition from the configuration. -/
structure DerivedDef where
  key : String
  expr : FExpr
deriving DecidableEq

/-- The loop body of calculate_derived (src/metrics.py lines 65-75): assign
result[key] = result.eval(expr) — the expression is evaluated against the
frame as accumulated so far, including previously assigned derived columns —
and on failure assign an all-NaN column. -/
def derivedStep (acc : DFrame) (d : DerivedDef) : DFrame :=
  match evalExprDF acc d.expr with
  | some v => acc.setCol d.key v
  | none => acc.setCol d.key (acc.dates.map fun _ => EVal.nan)

/-- Embedding of calculate_derived (src/metrics.py lines 52-77): copy the
input frame and fold the derived definitions over it in configuration
order. -/
def calculate_derived (defs : List DerivedDef) (df : DFrame) : DFrame :=
  defs.foldl derivedStep df

/-- The column an expression denotes against the raw frame only: its value
when it evaluates, an all-NaN column when it fails.  This is the spec's
raw-only-snapshot semantics for one derived column. -/
def colOrNan (df : DFrame) (e : FExpr) : List EVal :=
  (evalExprDF df e).getD (df.dates.map fun _ => EVal.nan)

/-! ## Alert evaluation context (src/alerts.py, get_alert_context) -/

/-- The hardcoded stat suffixes scanned by get_alert_context
(src/alerts.py line 88). -/
def all_suffixes : List String :=
  ["d1", "d5", "d20", "pct1", "pct5", "ma5", "ma20", "std20", "zscore20"]

/-- series.dropna() keeping the index: the (date, value) pairs of the column
whose value is present. -/
def dropnaPairs (dates : List Int) (xs : List EVal) : List (Int × EVal) :=
  (dates.zip xs).filter fun p => !p.2.isNA

/-- df.loc[d, col]: the column's value on the row of date d (NaN when the
date is not in the index). -/
def valueAtDate (dates : List Int) (xs : List EVal) (d : Int) : EVal :=
  ((dates.zip xs).lookup d).getD EVal.nan

/-- The loop body of get_alert_context for one stat suffix (src/alerts.py
lines 90-107): skip when the stat column is absent; use the value on the
latest date's row when present there; otherwise fall back to the most recent
present value anywhere in the stat column; skip when the stat column has no
present value at all. -/
def contextEntry (df : DFrame) (key : String) (latest_date : Int)
    (suffix : String) : Option EVal :=
  match df.getCol (key ++ "_" ++ suffix) with
  | none => none
  | some cv =>
      let atL := valueAtDate df.dates cv latest_date
      if !atL.isNA then some atL
      else ((dropnaPairs df.dates cv).getLast?).map Prod.snd

/-- Embedding of get_alert_context (src/alerts.py lines 59-109): drop the
missing values of the metric column, take the last remaining row as the
latest date and value, then add one entry per stat suffix via
contextEntry. -/
def get_alert_context (key : String) (df : DFrame) : List (String × EVal) :=
  match df.getCol key with
  | none => []
  | some xs =>
      match (dropnaPairs df.dates xs).getLast? with
      | none => []
      | some lp =>
          all_suffixes.foldl
            (fun ctx suffix =>
              match contextEntry df key lp.1 suffix with
              | none => ctx
              | some v => ctx ++ [(suffix, v)])
            [("value", lp.2)]

/-- One configured alert with its parsed rule expression. -/
structure AlertRule where
  key : String
  rule : PyExpr
  severity : String

/-- Embedding of evaluate_alert (src/alerts.py lines 112-153), reduced to
the fields the claims observe: the triggered flag and the context value.
An empty context ("No data available") means triggered = false without
evaluating the rule. -/
def evaluate_alert (df : DFrame) (a : AlertRule) : Bool × Option EVal :=
  let context := get_alert_context a.key df
  (if context.isEmpty then false else evaluate_rule a.rule context,
   context.lookup "value")

/-- Embedding of evaluate_all_alerts (src/alerts.py lines 156-173): each
configured alert is evaluated independently against the same panel. -/
def evaluate_all_alerts (df : DFrame) (alerts : List AlertRule) :
    List (Bool × Option EVal) :=
  alerts.map (evaluate_alert df)

/-! ## Change and rolling statistics (src/metrics.py) -/

/-- One period-over-period change definition from the configuration. -/
structure ChangeDef where
  name : String
  type : String
  periods : Nat
deriving DecidableEq

/-- One rolling-statistic definition from the configuration. -/
structure RollingDef where
  name : String
  type : String
  window : Nat
deriving DecidableEq

/-- Both calculate_changes and calculate_rolling build a fresh frame on the
input's date axis and assign one column per matching definition; the shared
shape is this fold (an unmatched definition type falls off the if/elif chain
and assigns nothing). -/
def foldSetCols {α : Type} (colName : α → String) (colVal : α → Option (List EVal))
    (cfg : List α) (init : DFrame) : DFrame :=
  cfg.foldl
    (fun res cd =>
      match colVal cd with
      | some v => res.setCol (colName cd) v
      | none => res)
    init

/-- series.diff(p): value at row i minus value at row i-p; NaN for the first
p rows, and NaN propagates from either endpoint. -/
def diffCol (p : Nat) (xs : List EVal) : List EVal :=
  (List.range xs.length).map fun i =>
    if p ≤ i then EVal.sub (xs.getD i EVal.nan) (xs.getD (i - p) EVal.nan) else EVal.nan

/-- series.pct_change(p, fill_method=None) * 100: pandas computes
series / series.shift(p) - 1 with numpy float division, then the code
multiplies by 100. -/
def pctCol (p : Nat) (xs : List EVal) : List EVal :=
  (List.range xs.length).map fun i =>
    if p ≤ i then
      EVal.mul
        (EVal.sub (EVal.div (xs.getD i EVal.nan) (xs.getD (i - p) EVal.nan)) (EVal.num 1))
        (EVal.num 100)
    else EVal.nan

/-- The if/elif chain of calculate_changes (src/metrics.py lines 100-103). -/
def changeColVal (xs : List EVal) (cd : ChangeDef) : Option (List EVal) :=
  if cd.type = "diff" then some (diffCol cd.periods xs)
  else if cd.type = "pct_change" then some (pctCol cd.periods xs)
  else none

/-- Embedding of calculate_changes (src/metrics.py lines 80-105): a fresh
frame on df's date axis holding one change column per matching definition
for the given column. -/
def calculate_changes (cfg : List ChangeDef) (df : DFrame) (column : String) : DFrame :=
  foldSetCols (fun cd => column ++ "_" ++ cd.name)
    (changeColVal ((df.getCol column).getD [])) cfg ⟨df.dates, []⟩

/-- The trailing window of w rows ending at row i, when i+1 is at least w
(pandas rolling with the default min_periods equal to the window). -/
def windowAt (w : Nat) (xs : List EVal) (i : Nat) : Option (List EVal) :=
  if w ≤ i + 1 then some ((xs.take (i + 1)).drop (i + 1 - w)) else none

/-- Sum of a window under IEEE addition. -/
def sumE (l : List EVal) : EVal := l.foldl EVal.add (EVal.num 0)

/-- series.rolling(w).mean() at row i: NaN while the window is incomplete or
contains a missing value, else the arithmetic mean. -/
def rollingMean (w : Nat) (xs : List EVal) (i : Nat) : EVal :=
  match windowAt w xs i with
  | none => EVal.nan
  | some win =>
      if win.any EVal.isNA then EVal.nan else EVal.div (sumE win) (EVal.num (w : ℚ))

/-- The rolling sample variance at row i (divisor w - 1, pandas ddof 1);
NaN while the window is incomplete or contains a missing value, and for
w = 1 the 0/0 quotient is NaN exactly as in pandas. -/
def rollingVar (w : Nat) (xs : List EVal) (i : Nat) : EVal :=
  match windowAt w xs i with
  | none => EVal.nan
  | some win =>
      if win.any EVal.isNA then EVal.nan
      else
        EVal.div
          (sumE (win.map fun x =>
            EVal.mul (EVal.sub x (EVal.div (sumE win) (EVal.num (w : ℚ))))
              (EVal.sub x (EVal.div (sumE win) (EVal.num (w : ℚ))))))
          (EVal.num ((w : ℚ) - 1))

/-- series.rolling(w).std() at row i: the square root of the rolling sample
variance.  The real square root of a rational is not rational, so it enters
as the parameter sq; the claims only use that sq 0 = 0. -/
def rollingStd (sq : ℚ → ℚ) (w : Nat) (xs : List EVal) (i : Nat) : EVal :=
  match rollingVar w xs i with
  | .num q => .num (sq q)
  | .pinf => .pinf
  | _ => .nan

/-- std.replace(0, np.nan): the zero-variance guard of the zscore branch
(src/metrics.py line 135). -/
def replaceZeroNan (v : EVal) : EVal := if v = EVal.num 0 then EVal.nan else v

/-- The zscore column entry: (series - rolling mean) / rolling std with
zeros of the std replaced by NaN (src/metrics.py lines 132-135). -/
def zscoreAt (sq : ℚ → ℚ) (w : Nat) (xs : List EVal) (i : Nat) : EVal :=
  EVal.div (EVal.sub (xs.getD i EVal.nan) (rollingMean w xs i))
    (replaceZeroNan (rollingStd sq w xs i))

/-- The if/elif chain of calculate_rolling (src/metrics.py lines 128-135). -/
def rollingColVal (sq : ℚ → ℚ) (xs : List EVal) (rd : RollingDef) : Option (List EVal) :=
  if rd.type = "rolling_mean" then
    some ((List.range xs.length).map (rollingMean rd.window xs))
  else if rd.type = "rolling_std" then
    some ((List.range xs.length).map (rollingStd sq rd.window xs))
  else if rd.type = "zscore" then
    some ((List.range xs.length).map (zscoreAt sq rd.window xs))
  else none

/-- Embedding of calculate_rolling (src/metrics.py lines 108-137): a fresh
frame on df's date axis holding one rolling column per matching definition
for the given column. -/
def calculate_rolling (sq : ℚ → ℚ) (cfg : List RollingDef) (df : DFrame)
    (column : String) : DFrame :=
  foldSetCols (fun rd => column ++ "_" ++ rd.name)
    (rollingColVal sq ((df.getCol column).getD [])) cfg ⟨df.dates, []⟩

/-! ## Panel loading (src/metrics.py, load_base_data) -/

/-- df.asfreq("D") (src/metrics.py line 47): reindex to the contiguous daily
calendar from the first to the last index date; dates already present keep
their row values, the new dates get NaN rows. -/
def asfreqDaily (df : DFrame) : DFrame :=
  match df.dates.head?, df.dates.getLast? with
  | some first, some last =>
      ⟨(List.range ((last - first).toNat + 1)).map (fun (k : Nat) => first + (k : Int)),
       df.cols.map (fun c =>
         (c.1, (List.range ((last - first).toNat + 1)).map (fun (k : Nat) =>
           ((df.dates.zip c.2).lookup (first + (k : Int))).getD EVal.nan)))⟩
  | _, _ => df

/-- The forward-fill scan: each missing entry is replaced by the carried
most recent present value (NaN while none has been seen). -/
def ffillGo (carry : EVal) : List EVal → List EVal
  | [] => []
  | x :: rest => (if x.isNA then carry else x) :: ffillGo (if x.isNA then carry else x) rest

/-- column.ffill(). -/
def ffillList (xs : List EVal) : List EVal := ffillGo EVal.nan xs

/-- df.ffill(): forward-fill every column. -/
def ffillFrame (df : DFrame) : DFrame :=
  ⟨df.dates, df.cols.map (fun c => (c.1, ffillList c.2))⟩

/-- Embedding of load_base_data (src/metrics.py lines 20-49) as a function
of the raw observations panel (get_all_observations assembles that panel
from the store with one column per series and a date-sorted index): an empty
panel is returned unchanged, and with forward-fill enabled the panel is
reindexed to the daily calendar and forward-filled. -/
def load_base_data (df : DFrame) (ffill : Bool) : DFrame :=
  if df.dates.isEmpty then df
  else if ffill then ffillFrame (asfreqDaily df) else df

/-- Spec-side: the most recent present value of a column at or before date
d — the last (with a sorted index: the latest-dated) (date, value) pair with
date at most d and a present value; NaN when there is none. -/
def specFill (pairs : List (Int × EVal)) (d : Int) : EVal :=
  pairs.foldl (fun acc p => if p.1 ≤ d ∧ p.2.isNA = false then p.2 else acc) EVal.nan

/-! ## Mutation model (frame effects of the metrics functions)

Python variables hold references to DataFrame objects.  The heap is the list
of live frames, a reference is an index into it; df.copy() and
pd.DataFrame(index=df.index) allocate fresh cells at the end of the heap,
and a column assignment mutates the referenced cell in place.  Each metrics
function below is the source function replayed against this heap: it reads
the input frame through its reference, allocates its result object, and
performs every column assignment of the source loop on the result cell. -/

/-- The heap of live frames. -/
abbrev Heap := List DFrame

/-- The shared loop shape: each iteration either mutates the result cell r
in place through a column assignment, or assigns nothing (the if/elif chain
falls through). -/
def heapFoldSet {α : Type} (f : DFrame → α → Option DFrame) (r : Nat)
    (cfg : List α) (hh : Heap) : Heap :=
  cfg.foldl
    (fun hh cd =>
      match f (hh.getD r ⟨[], []⟩) cd with
      | some v => hh.set r v
      | none => hh)
    hh

/-- calculate_derived replayed on the heap: result = df.copy() allocates,
then each derived definition assigns one column of the result cell
(src/metrics.py lines 52-77). -/
def calculate_derivedH (defs : List DerivedDef) (h : Heap) (dfr : Nat) : Heap × Nat :=
  (heapFoldSet (fun acc d => some (derivedStep acc d)) h.length defs
    (h ++ [h.getD dfr ⟨[], []⟩]), h.length)

/-- calculate_changes replayed on the heap: result = pd.DataFrame(index =
df.index) allocates an empty frame on df's date axis, then each matching
change definition assigns one column of the result cell
(src/metrics.py lines 80-105). -/
def calculate_changesH (cfg : List ChangeDef) (column : String) (h : Heap)
    (dfr : Nat) : Heap × Nat :=
  (heapFoldSet
    (fun acc cd =>
      match changeColVal (((h.getD dfr ⟨[], []⟩).getCol column).getD []) cd with
      | some v => some (acc.setCol (column ++ "_" ++ cd.name) v)
      | none => none)
    h.length cfg (h ++ [⟨(h.getD dfr ⟨[], []⟩).dates, []⟩]), h.length)

/-- calculate_rolling replayed on the heap, analogously
(src/metrics.py lines 108-137). -/
def calculate_rollingH (sq : ℚ → ℚ) (cfg : List RollingDef) (column : String)
    (h : Heap) (dfr : Nat) : Heap × Nat :=
  (heapFoldSet
    (fun acc rd =>
      match rollingColVal sq (((h.getD dfr ⟨[], []⟩).getCol column).getD []) rd with
      | some v => some (acc.setCol (column ++ "_" ++ rd.name) v)
      | none => none)
    h.length cfg (h ++ [⟨(h.getD dfr ⟨[], []⟩).dates, []⟩]), h.length)

end FedMonitor

namespace FedMonitor

/-! ## Theorems -/

theorem strN_injective : Function.Injective strN := by
  intro a b h
  have hd : (strN a).data = (strN b).data := by rw [h]
  simpa [strN] using congrArg List.length hd

/-- C1: the claim reads that make_alert_id is stable across process restarts
and differs whenever the rule text changes.  Both parts fail on the code.
First conjunct: for every process hash function there are two distinct rule
texts receiving the same alert id (the hash is folded modulo 10000, so 10001
distinct rule texts must collide).  Second conjunct: the id depends on the
process hash function, which CPython salts per process, so a restart can
change the id of an unchanged alert. -/
theorem make_alert_id_unstable :
    (∀ (pyHash : String → Int) (key severity note : String),
      ∃ r₁ r₂ : String, r₁ ≠ r₂ ∧
        make_alert_id pyHash ⟨key, r₁, severity, note⟩ =
          make_alert_id pyHash ⟨key, r₂, severity, note⟩)
    ∧ ∃ (h₁ h₂ : String → Int) (a : AlertDef),
        make_alert_id h₁ a ≠ make_alert_id h₂ a := by
  constructor
  · intro pyHash key severity note
    have hmaps : ∀ n ∈ Finset.range 10001,
        (pyHash (strN n) % 10000).toNat ∈ Finset.range 10000 := by
      intro n _
      have h2 := Int.emod_lt_of_pos (pyHash (strN n)) (by norm_num : (0:Int) < 10000)
      have h3 := Int.emod_nonneg (pyHash (strN n)) (by norm_num : (10000:Int) ≠ 0)
      simp only [Finset.mem_range]
      omega
    have hcard : (Finset.range 10000).card < (Finset.range 10001).card := by simp
    obtain ⟨n₁, hn₁, n₂, hn₂, hne, heq⟩ :=
      Finset.exists_ne_map_eq_of_card_lt_of_maps_to hcard hmaps
    refine ⟨strN n₁, strN n₂, fun hcon => hne (strN_injective hcon), ?_⟩
    have hmod : pyHash (strN n₁) % 10000 = pyHash (strN n₂) % 10000 := by
      have e₁ := Int.emod_nonneg (pyHash (strN n₁)) (by norm_num : (10000:Int) ≠ 0)
      have e₂ := Int.emod_nonneg (pyHash (strN n₂)) (by norm_num : (10000:Int) ≠ 0)
      omega
    simp [make_alert_id, hmod]
  · exact ⟨fun _ => 0, fun _ => 1, ⟨"k", "r", "s", ""⟩, by decide⟩

theorem update_alert_state_some_ne (store : AlertStore) (aid : String) (st : AState)
    (v : Option EVal) (p : AState)
    (h : (update_alert_state store aid st v).1 = some p) : p ≠ st := by
  by_cases hp : prevStateOf store aid ≠ st
  · simp only [update_alert_state] at h
    rw [if_pos hp] at h
    injection h with h
    rw [h] at hp
    exact hp
  · simp [update_alert_state, hp] at h

theorem passStep_notified_eq (pyHash : String → Int) (evalr : AlertDef → Bool × Option EVal)
    (store : AlertStore) (a : AlertDef) :
    (passStep pyHash evalr store a).2.2 =
      ((passStep pyHash evalr store a).2.1.filter
        (fun e => decide (e.state_to = AState.breach))).map LogEntry.alert_id := by
  unfold passStep
  by_cases ht : (evalr a).1 = true
  · simp only [ht, if_true]
    rcases h : (update_alert_state store (make_alert_id pyHash a)
        AState.breach (evalr a).2).1 with _ | prev
    · simp [h]
    · simp [h, List.filter]
  · simp only [ht, if_false]
    rcases h : (update_alert_state store (make_alert_id pyHash a)
        AState.ok (evalr a).2).1 with _ | prev
    · simp [h]
    · simp [h, List.filter]

theorem passStep_log_changed (pyHash : String → Int) (evalr : AlertDef → Bool × Option EVal)
    (store : AlertStore) (a : AlertDef) :
    ∀ e ∈ (passStep pyHash evalr store a).2.1, e.state_from ≠ e.state_to := by
  unfold passStep
  by_cases ht : (evalr a).1 = true
  · simp only [ht, if_true]
    rcases h : (update_alert_state store (make_alert_id pyHash a)
        AState.breach (evalr a).2).1 with _ | prev
    · simp [h]
    · have hne := update_alert_state_some_ne _ _ _ _ _ h
      simp [h, hne]
  · simp only [ht, if_false]
    rcases h : (update_alert_state store (make_alert_id pyHash a)
        AState.ok (evalr a).2).1 with _ | prev
    · simp [h]
    · have hne := update_alert_state_some_ne _ _ _ _ _ h
      simp [h, hne]

theorem check_notified_eq (pyHash : String → Int) (evalr : AlertDef → Bool × Option EVal)
    (severity_filter : Option (List String)) (alerts : List AlertDef) (store : AlertStore) :
    (check_alerts_with_state pyHash evalr severity_filter store alerts).2.2 =
      ((check_alerts_with_state pyHash evalr severity_filter store alerts).2.1.filter
        (fun e => decide (e.state_to = AState.breach))).map LogEntry.alert_id := by
  induction alerts generalizing store with
  | nil => simp [check_alerts_with_state]
  | cons a rest ih =>
      by_cases hskip : skipAlert severity_filter a.severity
      · simpa [check_alerts_with_state, hskip] using ih store
      · simp only [check_alerts_with_state, hskip, Bool.false_eq_true, if_false,
          List.filter_append, List.map_append]
        rw [← passStep_notified_eq, ← ih]

theorem check_log_changed (pyHash : String → Int) (evalr : AlertDef → Bool × Option EVal)
    (severity_filter : Option (List String)) (alerts : List AlertDef) (store : AlertStore) :
    ∀ e ∈ (check_alerts_with_state pyHash evalr severity_filter store alerts).2.1,
      e.state_from ≠ e.state_to := by
  induction alerts generalizing store with
  | nil => simp [check_alerts_with_state]
  | cons a rest ih =>
      by_cases hskip : skipAlert severity_filter a.severity
      · simpa [check_alerts_with_state, hskip] using ih store
      · simp only [check_alerts_with_state, hskip, Bool.false_eq_true, if_false,
          List.mem_append]
        intro e he
        rcases he with he | he
        · exact passStep_log_changed pyHash evalr store a e he
        · exact ih _ e he

/-- C2: within one evaluation pass, the notification callback is invoked for
exactly the transitions whose new state is breach (and every logged
transition changes the state, so those are exactly the OK to BREACH
transitions; transitions into OK are logged, never notified); and in the
concrete four-pass scenario with triggered flags false, true, true, false,
exactly one notification fires and exactly the two transitions OK to BREACH
and BREACH to OK are logged. -/
theorem check_alerts_transition_notification :
    (∀ (pyHash : String → Int) (evalr : AlertDef → Bool × Option EVal)
        (severity_filter : Option (List String)) (store : AlertStore)
        (alerts : List AlertDef),
      (check_alerts_with_state pyHash evalr severity_filter store alerts).2.2 =
        ((check_alerts_with_state pyHash evalr severity_filter store alerts).2.1.filter
          (fun e => decide (e.state_to = AState.breach))).map LogEntry.alert_id
      ∧ ∀ e ∈ (check_alerts_with_state pyHash evalr severity_filter store alerts).2.1,
          e.state_from ≠ e.state_to)
    ∧ ((runPasses (fun _ => 0) ⟨"effr", "value > -8", "critical", ""⟩
          [false, true, true, false] []).2.2.length = 1
      ∧ (runPasses (fun _ => 0) ⟨"effr", "value > -8", "critical", ""⟩
          [false, true, true, false] []).2.1.length = 2
      ∧ (runPasses (fun _ => 0) ⟨"effr", "value > -8", "critical", ""⟩
          [false, true, true, false] []).2.1.map
            (fun e => (e.state_from, e.state_to)) =
          [(AState.ok, AState.breach), (AState.breach, AState.ok)]) := by
  refine ⟨fun pyHash evalr severity_filter store alerts =>
    ⟨check_notified_eq pyHash evalr severity_filter alerts store,
     check_log_changed pyHash evalr severity_filter alerts store⟩, ?_, ?_, ?_⟩
  · decide
  · decide
  · decide

/-- Witness for C2 at a concrete input: a single never-seen critical alert
that triggers is notified exactly per its single ok-to-breach log entry, and
that concrete log entry indeed changes state. -/
theorem check_alerts_transition_notification_witness :
    ((check_alerts_with_state (fun _ => 0) (fun _ => (true, none)) none []
        [⟨"effr", "value > -8", "critical", ""⟩]).2.2 =
      ((check_alerts_with_state (fun _ => 0) (fun _ => (true, none)) none []
        [⟨"effr", "value > -8", "critical", ""⟩]).2.1.filter
          (fun e => decide (e.state_to = AState.breach))).map LogEntry.alert_id)
    ∧ (⟨"effr:critical:0", "critical", AState.ok, AState.breach, none, ""⟩ :
        LogEntry).state_from ≠
      (⟨"effr:critical:0", "critical", AState.ok, AState.breach, none, ""⟩ :
        LogEntry).state_to := by
  constructor
  · exact (check_alerts_transition_notification.1 (fun _ => 0) (fun _ => (true, none))
      none [] [⟨"effr", "value > -8", "critical", ""⟩]).1
  · exact (check_alerts_transition_notification.1 (fun _ => 0) (fun _ => (true, none))
      none [] [⟨"effr", "value > -8", "critical", ""⟩]).2 _ (by decide)

/-- C3: refuted on the code.  Replacing __builtins__ in the globals passed to
eval does not disable attribute (member) access: the parsed rule
"().__class__.__name__ == 'tuple'" contains an attribute access node, its
inner member access successfully yields the tuple class object under the
restricted globals and an empty context, and evaluate_rule returns true for
it instead of rejecting the member access.  So evaluate_rule exposes more
capability than comparisons, arithmetic, logic, abs/min/max and the boolean
literals. -/
theorem evaluate_rule_attribute_access_not_blocked :
    usesAttribute attrEscapeRule = true
    ∧ evaluate_rule attrEscapeRule [] = true
    ∧ pyEval [] (PyExpr.attr (PyExpr.tupleLit PyExprList.nil) "__class__") =
        Except.ok (PyVal.pytype "tuple") :=
  ⟨rfl, rfl, rfl⟩

/-- C4: any rule whose evaluation raises — a NameError from a variable
missing in the context as much as any other exception — makes evaluate_rule
return false instead of propagating; and in evaluate_all_alerts each alert's
result is a function of that alert's own definition and the shared panel
alone, so a broken rule can neither abort the pass nor change any other
alert's result. -/
theorem evaluate_rule_error_containment :
    (∀ (rule : PyExpr) (context : List (String × EVal)) (err : PyErr),
        pyEval context rule = .error err → evaluate_rule rule context = false)
    ∧ (∀ (df : DFrame) (alerts₁ alerts₂ : List AlertRule) (i : Nat),
        alerts₁[i]? = alerts₂[i]? →
        (evaluate_all_alerts df alerts₁)[i]? = (evaluate_all_alerts df alerts₂)[i]?) := by
  constructor
  · intro rule context err h
    unfold evaluate_rule
    rw [h]
  · intro df alerts₁ alerts₂ i h
    simp only [evaluate_all_alerts, List.getElem?_map, h]

/-- Witness for C4: the rule "d1" with an empty context raises NameError and
evaluates to false, and replacing the second alert's rule by a broken one
leaves the first alert's result unchanged. -/
theorem evaluate_rule_error_containment_witness :
    evaluate_rule (PyExpr.name "d1") [] = false
    ∧ (evaluate_all_alerts ⟨[], []⟩
        [⟨"k", PyExpr.name "d1", "info"⟩, ⟨"k2", PyExpr.const (PyVal.bool true), "info"⟩])[0]? =
      (evaluate_all_alerts ⟨[], []⟩
        [⟨"k", PyExpr.name "d1", "info"⟩, ⟨"k2", PyExpr.name "oops", "info"⟩])[0]? :=
  ⟨evaluate_rule_error_containment.1 (PyExpr.name "d1") [] (PyErr.nameError "d1") rfl,
   evaluate_rule_error_containment.2 ⟨[], []⟩
     [⟨"k", PyExpr.name "d1", "info"⟩, ⟨"k2", PyExpr.const (PyVal.bool true), "info"⟩]
     [⟨"k", PyExpr.name "d1", "info"⟩, ⟨"k2", PyExpr.name "oops", "info"⟩] 0 rfl⟩

theorem lookup_assocSet_self (l : List (String × List EVal)) (k : String) (v : List EVal) :
    (assocSet l k v).lookup k = some v := by
  induction l with
  | nil => simp [assocSet, List.lookup]
  | cons p rest ih =>
      obtain ⟨k', v'⟩ := p
      by_cases h : k' = k
      · subst h
        simp [assocSet, List.lookup]
      · have hb : (k == k') = false := beq_eq_false_iff_ne.mpr (fun e => h e.symm)
        simp [assocSet, h, List.lookup, hb, ih]

theorem lookup_assocSet_ne (l : List (String × List EVal)) (k : String) (v : List EVal)
    (n : String) (h : n ≠ k) : (assocSet l k v).lookup n = l.lookup n := by
  have hb : (n == k) = false := beq_eq_false_iff_ne.mpr h
  induction l with
  | nil => simp [assocSet, List.lookup, hb]
  | cons p rest ih =>
      obtain ⟨k', v'⟩ := p
      by_cases hk : k' = k
      · subst hk
        simp [assocSet, List.lookup, hb]
      · cases hn : (n == k') <;> simp [assocSet, hk, List.lookup, hn, ih]

theorem derivedStep_getCol_self (acc : DFrame) (d : DerivedDef) :
    (derivedStep acc d).getCol d.key =
      some ((evalExprDF acc d.expr).getD (acc.dates.map fun _ => EVal.nan)) := by
  unfold derivedStep
  rcases evalExprDF acc d.expr with _ | v <;>
    simp [DFrame.getCol, DFrame.setCol, lookup_assocSet_self]

theorem derivedStep_getCol_ne (acc : DFrame) (d : DerivedDef) (n : String)
    (h : n ≠ d.key) : (derivedStep acc d).getCol n = acc.getCol n := by
  unfold derivedStep
  rcases evalExprDF acc d.expr with _ | v <;>
    simp [DFrame.getCol, DFrame.setCol, lookup_assocSet_ne _ _ _ _ h]

theorem derivedStep_dates (acc : DFrame) (d : DerivedDef) :
    (derivedStep acc d).dates = acc.dates := by
  unfold derivedStep
  rcases evalExprDF acc d.expr with _ | v <;> rfl

theorem calculate_derived_getCol_not_mem (defs : List DerivedDef) (acc : DFrame) (n : String)
    (h : ∀ d ∈ defs, n ≠ d.key) :
    (defs.foldl derivedStep acc).getCol n = acc.getCol n := by
  induction defs generalizing acc with
  | nil => rfl
  | cons d rest ih =>
      simp only [List.foldl_cons]
      rw [ih _ (fun d' hd' => h d' (by simp [hd']))]
      exact derivedStep_getCol_ne acc d n (h d (by simp))

theorem evalExprDF_congr (df₁ df₂ : DFrame) (hd : df₁.dates = df₂.dates) :
    ∀ e : FExpr, (∀ v ∈ exprVars e, df₁.getCol v = df₂.getCol v) →
      evalExprDF df₁ e = evalExprDF df₂ e := by
  intro e
  induction e with
  | col n =>
      intro h
      simpa [evalExprDF] using h n (by simp [exprVars])
  | lit q =>
      intro h
      simp [evalExprDF, hd]
  | neg e ih =>
      intro h
      have he := ih (fun v hv => h v (by simpa [exprVars] using hv))
      simp only [evalExprDF, he]
  | add a b iha ihb =>
      intro h
      have ha := iha (fun v hv => h v (by simp only [exprVars, List.mem_append]; exact Or.inl hv))
      have hb := ihb (fun v hv => h v (by simp only [exprVars, List.mem_append]; exact Or.inr hv))
      simp only [evalExprDF, ha, hb]
  | sub a b iha ihb =>
      intro h
      have ha := iha (fun v hv => h v (by simp only [exprVars, List.mem_append]; exact Or.inl hv))
      have hb := ihb (fun v hv => h v (by simp only [exprVars, List.mem_append]; exact Or.inr hv))
      simp only [evalExprDF, ha, hb]
  | mul a b iha ihb =>
      intro h
      have ha := iha (fun v hv => h v (by simp only [exprVars, List.mem_append]; exact Or.inl hv))
      have hb := ihb (fun v hv => h v (by simp only [exprVars, List.mem_append]; exact Or.inr hv))
      simp only [evalExprDF, ha, hb]
  | div a b iha ihb =>
      intro h
      have ha := iha (fun v hv => h v (by simp only [exprVars, List.mem_append]; exact Or.inl hv))
      have hb := ihb (fun v hv => h v (by simp only [exprVars, List.mem_append]; exact Or.inr hv))
      simp only [evalExprDF, ha, hb]

theorem calculate_derived_go (df : DFrame) (K : List String) :
    ∀ (defs : List DerivedDef) (acc : DFrame),
      acc.dates = df.dates →
      (∀ d ∈ defs, d.key ∈ K) →
      (∀ d ∈ defs, ∀ v ∈ exprVars d.expr, v ∉ K) →
      (∀ n, n ∉ K → acc.getCol n = df.getCol n) →
      (defs.map DerivedDef.key).Nodup →
      ∀ d ∈ defs, (defs.foldl derivedStep acc).getCol d.key = some (colOrNan df d.expr) := by
  intro defs
  induction defs with
  | nil =>
      intro acc _ _ _ _ _ d hd
      cases hd
  | cons d0 rest ih =>
      intro acc hdates hK hvars hagree hnodup d hd
      have heval : evalExprDF acc d0.expr = evalExprDF df d0.expr :=
        evalExprDF_congr acc df hdates d0.expr
          (fun v hv => hagree v (hvars d0 (by simp) v hv))
      have hstep_key : (derivedStep acc d0).getCol d0.key = some (colOrNan df d0.expr) := by
        rw [derivedStep_getCol_self, heval, hdates]
        rfl
      have hstep_dates : (derivedStep acc d0).dates = df.dates := by
        rw [derivedStep_dates, hdates]
      have hstep_agree : ∀ n, n ∉ K → (derivedStep acc d0).getCol n = df.getCol n := by
        intro n hn
        have hne : n ≠ d0.key := fun e => hn (e ▸ hK d0 (by simp))
        rw [derivedStep_getCol_ne acc d0 n hne]
        exact hagree n hn
      have hnodup_rest : (rest.map DerivedDef.key).Nodup := by
        simpa using hnodup.of_cons
      simp only [List.foldl_cons]
      rcases List.mem_cons.mp hd with hd | hd
      · subst hd
        have hkey_not : ∀ d' ∈ rest, d.key ≠ d'.key := by
          intro d' hd' he
          have : d.key ∈ rest.map DerivedDef.key := he ▸ List.mem_map_of_mem _ hd'
          exact (List.nodup_cons.mp (by simpa using hnodup)).1 this
        rw [calculate_derived_getCol_not_mem rest _ d.key hkey_not]
        exact hstep_key
      · exact ih (derivedStep acc d0) hstep_dates
          (fun d' hd' => hK d' (by simp [hd']))
          (fun d' hd' => hvars d' (by simp [hd']))
          hstep_agree hnodup_rest d hd

/-- C5 as amended: each derived column equals its expression evaluated
against the panel as accumulated so far, which in calculate_derived includes
previously assigned derived columns; when no derived expression mentions any
derived key (and the derived keys are pairwise distinct), every derived
column does equal its expression over the raw columns only and the result is
then independent of the order of the derived definitions.  Without that
restriction the order matters (see the counterexample). -/
theorem calculate_derived_raw_snapshot (df : DFrame) (defs : List DerivedDef)
    (hvars : ∀ d ∈ defs, ∀ e ∈ defs, d.key ∉ exprVars e.expr)
    (hnodup : (defs.map DerivedDef.key).Nodup) :
    (∀ d ∈ defs, (calculate_derived defs df).getCol d.key = some (colOrNan df d.expr))
    ∧ ∀ defs' : List DerivedDef, defs'.Perm defs →
        ∀ d ∈ defs, (calculate_derived defs' df).getCol d.key =
          (calculate_derived defs df).getCol d.key := by
  have hmain : ∀ l : List DerivedDef, l.Perm defs →
      ∀ d ∈ l, (calculate_derived l df).getCol d.key = some (colOrNan df d.expr) := by
    intro l hperm
    refine calculate_derived_go df (l.map DerivedDef.key) l df rfl
      (fun d hd => List.mem_map_of_mem _ hd) ?_ (fun n _ => rfl)
      (((hperm.map DerivedDef.key).nodup_iff).mpr hnodup)
    intro d hd v hv hvK
    obtain ⟨d', hd', hkey⟩ := List.mem_map.mp hvK
    exact hvars d' (hperm.subset hd') d (hperm.subset hd) (hkey ▸ hv)
  refine ⟨hmain defs (List.Perm.refl defs), ?_⟩
  intro defs' hperm d hd
  rw [hmain defs' hperm d (hperm.mem_iff.mpr hd),
      hmain defs (List.Perm.refl defs) d hd]

/-- Witness for C5 as amended: a single derived definition over a raw column
satisfies the hypotheses and its column equals the raw-only evaluation. -/
theorem calculate_derived_raw_snapshot_witness :
    (calculate_derived [⟨"a", FExpr.add (FExpr.col "x") (FExpr.lit 1)⟩]
        ⟨[0], [("x", [EVal.num 1])]⟩).getCol "a" =
      some (colOrNan ⟨[0], [("x", [EVal.num 1])]⟩
        (FExpr.add (FExpr.col "x") (FExpr.lit 1))) :=
  (calculate_derived_raw_snapshot ⟨[0], [("x", [EVal.num 1])]⟩
      [⟨"a", FExpr.add (FExpr.col "x") (FExpr.lit 1)⟩]
      (by decide) (by decide)).1
    ⟨"a", FExpr.add (FExpr.col "x") (FExpr.lit 1)⟩ (by decide)

/-- C5 counterexample: with raw column x = [1] and the derived definitions
a = x + 1 and b = a * 2 in that order, calculate_derived computes b = [4],
which is the expression evaluated against the already-added derived column
a, not against the raw columns only (against which it does not evaluate at
all); reversing the definition order gives b = [NaN], so the result depends
on the order of the derived definitions. -/
theorem calculate_derived_order_dependent :
    ((calculate_derived
        [⟨"a", FExpr.add (FExpr.col "x") (FExpr.lit 1)⟩,
         ⟨"b", FExpr.mul (FExpr.col "a") (FExpr.lit 2)⟩]
        ⟨[0], [("x", [EVal.num 1])]⟩).getCol "b" = some [EVal.num 4])
    ∧ ((calculate_derived
        [⟨"b", FExpr.mul (FExpr.col "a") (FExpr.lit 2)⟩,
         ⟨"a", FExpr.add (FExpr.col "x") (FExpr.lit 1)⟩]
        ⟨[0], [("x", [EVal.num 1])]⟩).getCol "b" = some [EVal.nan])
    ∧ evalExprDF ⟨[0], [("x", [EVal.num 1])]⟩
        (FExpr.mul (FExpr.col "a") (FExpr.lit 2)) = none := by
  refine ⟨?_, ?_, rfl⟩
  · norm_num [calculate_derived, derivedStep, evalExprDF, DFrame.getCol, DFrame.setCol,
      assocSet, List.lookup, EVal.add, EVal.mul,
      show ("b" == "x") = false from rfl, show ("b" == "a") = false from rfl]
  · norm_num [calculate_derived, derivedStep, evalExprDF, DFrame.getCol, DFrame.setCol,
      assocSet, List.lookup, EVal.add, EVal.mul,
      show ("b" == "x") = false from rfl, show ("b" == "a") = false from rfl]

theorem getCol_setCol_self (df : DFrame) (k : String) (v : List EVal) :
    (df.setCol k v).getCol k = some v :=
  lookup_assocSet_self df.cols k v

theorem getCol_setCol_ne (df : DFrame) (k : String) (v : List EVal) (n : String)
    (h : n ≠ k) : (df.setCol k v).getCol n = df.getCol n :=
  lookup_assocSet_ne df.cols k v n h

theorem foldSetCols_getCol_not_written {α : Type} (colName : α → String)
    (colVal : α → Option (List EVal)) (cfg : List α) (init : DFrame) (n : String)
    (h : ∀ cd ∈ cfg, colVal cd ≠ none → n ≠ colName cd) :
    (foldSetCols colName colVal cfg init).getCol n = init.getCol n := by
  induction cfg generalizing init with
  | nil => rfl
  | cons c0 rest ih =>
      simp only [foldSetCols, List.foldl_cons]
      rcases hv : colVal c0 with _ | v
      · simp only [hv]
        exact ih init (fun cd hcd => h cd (List.mem_cons_of_mem c0 hcd))
      · simp only [hv]
        have hne : n ≠ colName c0 :=
          h c0 (List.mem_cons_self c0 rest) (by simp [hv])
        rw [← getCol_setCol_ne init (colName c0) v n hne]
        exact ih (init.setCol (colName c0) v)
          (fun cd hcd => h cd (List.mem_cons_of_mem c0 hcd))

theorem foldSetCols_getCol_unique {α : Type} (colName : α → String)
    (colVal : α → Option (List EVal)) (cfg : List α) (init : DFrame)
    (cd : α) (v : List EVal) (hcd : cd ∈ cfg) (hv : colVal cd = some v)
    (huniq : ∀ cd' ∈ cfg, cd' = cd ∨ colName cd' ≠ colName cd) :
    (foldSetCols colName colVal cfg init).getCol (colName cd) = some v := by
  induction cfg generalizing init with
  | nil => cases hcd
  | cons c0 rest ih =>
      simp only [foldSetCols, List.foldl_cons]
      by_cases hc0 : c0 = cd
      · subst hc0
        rw [hv]
        by_cases hmem : c0 ∈ rest
        · exact ih (init.setCol (colName c0) v) hmem
            (fun cd' hcd' => huniq cd' (List.mem_cons_of_mem c0 hcd'))
        · have hnw : ∀ cd' ∈ rest, colVal cd' ≠ none → colName c0 ≠ colName cd' := by
            intro cd' hcd' _
            rcases huniq cd' (List.mem_cons_of_mem c0 hcd') with h | h
            · subst h
              exact absurd hcd' hmem
            · exact fun e => h e.symm
          have hrw := foldSetCols_getCol_not_written colName colVal rest
            (init.setCol (colName c0) v) (colName c0) hnw
          simp only [foldSetCols] at hrw
          rw [hrw]
          exact getCol_setCol_self init (colName c0) v
      · have hmem : cd ∈ rest := by
          rcases List.mem_cons.mp hcd with h | h
          · exact absurd h.symm hc0
          · exact h
        rcases hv0 : colVal c0 with _ | v0
        · exact ih init hmem
            (fun cd' hcd' => huniq cd' (List.mem_cons_of_mem c0 hcd'))
        · exact ih (init.setCol (colName c0) v0) hmem
            (fun cd' hcd' => huniq cd' (List.mem_cons_of_mem c0 hcd'))

theorem map_range_getD (n i : Nat) (f : Nat → EVal) (h : i < n) :
    ((List.range n).map f).getD i EVal.nan = f i := by
  simp [List.getD_eq_getElem?_getD, List.getElem?_map, List.getElem?_range, h]

theorem EVal.div_nan_right (a : EVal) : EVal.div a EVal.nan = EVal.nan := by
  cases a <;> rfl

theorem any_isNA_replicate_num (w : Nat) (c : ℚ) :
    (List.replicate w (EVal.num c)).any EVal.isNA = false := by
  induction w with
  | zero => rfl
  | succ n ih => simp [List.replicate, EVal.isNA, ih]

theorem foldl_add_replicate (w : Nat) (c : ℚ) :
    ∀ a : ℚ, (List.replicate w (EVal.num c)).foldl EVal.add (EVal.num a) =
      EVal.num (a + w * c) := by
  induction w with
  | zero =>
      intro a
      simp [List.replicate]
  | succ n ih =>
      intro a
      have : EVal.add (EVal.num a) (EVal.num c) = EVal.num (a + c) := rfl
      simp only [List.replicate, List.foldl_cons, this, ih (a + c)]
      congr 1
      push_cast
      ring

theorem sumE_replicate (w : Nat) (c : ℚ) :
    sumE (List.replicate w (EVal.num c)) = EVal.num (w * c) := by
  unfold sumE
  rw [foldl_add_replicate w c 0]
  norm_num

theorem rollingVar_const (w : Nat) (hw : 2 ≤ w) (xs : List EVal) (i : Nat) (c : ℚ)
    (hwin : windowAt w xs i = some (List.replicate w (EVal.num c))) :
    rollingVar w xs i = EVal.num 0 := by
  have hw0 : (w : ℚ) ≠ 0 := by
    have : (0 : ℚ) < (w : ℚ) := by exact_mod_cast Nat.lt_of_lt_of_le (by norm_num) hw
    exact ne_of_gt this
  have hw1 : (w : ℚ) - 1 ≠ 0 := by
    have : (2 : ℚ) ≤ (w : ℚ) := by exact_mod_cast hw
    intro hcon
    linarith
  have hm : EVal.div (sumE (List.replicate w (EVal.num c))) (EVal.num (w : ℚ)) =
      EVal.num c := by
    rw [sumE_replicate]
    simp only [EVal.div, hw0, if_false]
    rw [mul_div_cancel_left₀ c hw0]
  have hsq : EVal.mul (EVal.sub (EVal.num c) (EVal.num c))
      (EVal.sub (EVal.num c) (EVal.num c)) = EVal.num 0 := by
    simp [EVal.sub, EVal.neg, EVal.add, EVal.mul]
  unfold rollingVar
  rw [hwin]
  simp only [any_isNA_replicate_num, if_false, Bool.false_eq_true]
  rw [hm, List.map_replicate, hsq, sumE_replicate]
  simp only [mul_zero, EVal.div, hw1, if_false]
  rw [zero_div]

/-- C7: the zscore column computed by calculate_rolling equals, at every
row, the column value minus the w-row rolling mean divided by the w-row
rolling standard deviation whenever that standard deviation is nonzero, and
is NaN (no value, not an infinity) whenever the standard deviation is
exactly zero — in particular on any window over which the column is
constant. -/
theorem calculate_rolling_zscore_guard (sq : ℚ → ℚ) (cfg : List RollingDef)
    (df : DFrame) (column : String) (xs : List EVal)
    (hxs : df.getCol column = some xs)
    (rd : RollingDef) (hrd : rd ∈ cfg) (htype : rd.type = "zscore")
    (hsq0 : sq 0 = 0)
    (huniq : ∀ rd' ∈ cfg, rd' = rd ∨ column ++ "_" ++ rd'.name ≠ column ++ "_" ++ rd.name) :
    ∃ zs, (calculate_rolling sq cfg df column).getCol (column ++ "_" ++ rd.name) = some zs
      ∧ zs.length = xs.length
      ∧ ∀ i < xs.length,
          (rollingStd sq rd.window xs i = EVal.num 0 → zs.getD i EVal.nan = EVal.nan)
          ∧ (rollingStd sq rd.window xs i ≠ EVal.num 0 →
              zs.getD i EVal.nan =
                EVal.div (EVal.sub (xs.getD i EVal.nan) (rollingMean rd.window xs i))
                  (rollingStd sq rd.window xs i))
          ∧ (∀ c : ℚ, 2 ≤ rd.window →
              windowAt rd.window xs i = some (List.replicate rd.window (EVal.num c)) →
              rollingStd sq rd.window xs i = EVal.num 0 ∧ zs.getD i EVal.nan = EVal.nan) := by
  have hval : rollingColVal sq ((df.getCol column).getD []) rd =
      some ((List.range xs.length).map (zscoreAt sq rd.window xs)) := by
    rw [hxs]
    unfold rollingColVal
    rw [htype]
    rfl
  refine ⟨(List.range xs.length).map (zscoreAt sq rd.window xs), ?_, by simp, ?_⟩
  · exact foldSetCols_getCol_unique _ _ cfg _ rd _ hrd hval huniq
  · intro i hi
    rw [map_range_getD _ _ _ hi]
    refine ⟨?_, ?_, ?_⟩
    · intro hstd
      unfold zscoreAt
      rw [hstd]
      simp only [replaceZeroNan, if_pos rfl]
      exact EVal.div_nan_right _
    · intro hstd
      unfold zscoreAt
      rw [show replaceZeroNan (rollingStd sq rd.window xs i) =
        rollingStd sq rd.window xs i from if_neg hstd]
    · intro c hw hwin
      have hvar := rollingVar_const rd.window hw xs i c hwin
      have hstd : rollingStd sq rd.window xs i = EVal.num 0 := by
        unfold rollingStd
        rw [hvar]
        show EVal.num (sq 0) = EVal.num 0
        rw [hsq0]
      refine ⟨hstd, ?_⟩
      unfold zscoreAt
      rw [hstd]
      simp only [replaceZeroNan, if_pos rfl]
      exact EVal.div_nan_right _

/-- Witness for C7: a column constant at 1 over a 2-row window gives a NaN
zscore at row 1, through the zero-variance guard. -/
theorem calculate_rolling_zscore_guard_witness :
    ∃ zs, (calculate_rolling (fun q => q) [⟨"zscore2", "zscore", 2⟩]
        ⟨[0, 1], [("x", [EVal.num 1, EVal.num 1])]⟩ "x").getCol "x_zscore2" = some zs
      ∧ zs.length = 2
      ∧ (rollingStd (fun q => q) 2 [EVal.num 1, EVal.num 1] 1 = EVal.num 0 ∧
          zs.getD 1 EVal.nan = EVal.nan) := by
  obtain ⟨zs, h1, h2, h3⟩ := calculate_rolling_zscore_guard (fun q => q)
    [⟨"zscore2", "zscore", 2⟩] ⟨[0, 1], [("x", [EVal.num 1, EVal.num 1])]⟩ "x"
    [EVal.num 1, EVal.num 1] rfl ⟨"zscore2", "zscore", 2⟩ (by decide) rfl rfl
    (by decide)
  refine ⟨zs, h1, h2, ?_⟩
  exact (h3 1 (by norm_num)).2.2 1 (by norm_num)
    (by norm_num [windowAt, List.replicate])

theorem pct_entry_nan (a b : EVal) (h : a = EVal.nan ∨ b = EVal.nan) :
    EVal.mul (EVal.sub (EVal.div a b) (EVal.num 1)) (EVal.num 100) = EVal.nan := by
  rcases h with h | h
  · subst h
    cases b <;> rfl
  · subst h
    rw [EVal.div_nan_right]
    rfl

theorem pct_entry_zero_denom (qa : ℚ) (hqa : qa ≠ 0) :
    EVal.mul (EVal.sub (EVal.div (EVal.num qa) (EVal.num 0)) (EVal.num 1)) (EVal.num 100) =
      (if 0 < qa then EVal.pinf else EVal.ninf) := by
  have hdiv : EVal.div (EVal.num qa) (EVal.num 0) =
      (if 0 < qa then EVal.pinf else EVal.ninf) := by
    simp only [EVal.div, if_true]
    rw [if_neg hqa]
  rw [hdiv]
  by_cases h0 : 0 < qa
  · rw [if_pos h0]
    show EVal.mul EVal.pinf (EVal.num 100) = EVal.pinf
    simp only [EVal.mul]
    rw [if_pos (by norm_num : (0 : ℚ) < 100)]
  · rw [if_neg h0]
    show EVal.mul EVal.ninf (EVal.num 100) = EVal.ninf
    simp only [EVal.mul]
    rw [if_pos (by norm_num : (0 : ℚ) < 100)]

/-- C8 as amended: the percent-change column computed by calculate_changes
at row i equals (value_i - value_{i-p}) / value_{i-p} * 100 whenever both
endpoints are present numbers and the denominator is nonzero, and is NaN (no
value) for the first p rows and whenever either endpoint is missing; but
when the denominator is exactly zero and the numerator is a nonzero number
the result is a signed infinity — a present value, not "no value" (pandas
float division produces inf there; only a 0/0 quotient gives NaN). -/
theorem calculate_changes_pct_spec (cfg : List ChangeDef) (df : DFrame) (column : String)
    (xs : List EVal) (hxs : df.getCol column = some xs)
    (cd : ChangeDef) (hcd : cd ∈ cfg) (htype : cd.type = "pct_change")
    (huniq : ∀ cd' ∈ cfg, cd' = cd ∨ column ++ "_" ++ cd'.name ≠ column ++ "_" ++ cd.name) :
    ∃ ps, (calculate_changes cfg df column).getCol (column ++ "_" ++ cd.name) = some ps
      ∧ ps.length = xs.length
      ∧ ∀ i < xs.length,
          (i < cd.periods → ps.getD i EVal.nan = EVal.nan)
          ∧ (cd.periods ≤ i →
              (xs.getD i EVal.nan = EVal.nan ∨ xs.getD (i - cd.periods) EVal.nan = EVal.nan) →
              ps.getD i EVal.nan = EVal.nan)
          ∧ (∀ qa qb : ℚ, cd.periods ≤ i → xs.getD i EVal.nan = EVal.num qa →
              xs.getD (i - cd.periods) EVal.nan = EVal.num qb → qb ≠ 0 →
              ps.getD i EVal.nan = EVal.num ((qa - qb) / qb * 100))
          ∧ (∀ qa : ℚ, cd.periods ≤ i → xs.getD i EVal.nan = EVal.num qa →
              xs.getD (i - cd.periods) EVal.nan = EVal.num 0 → qa ≠ 0 →
              ps.getD i EVal.nan = (if 0 < qa then EVal.pinf else EVal.ninf)
              ∧ ps.getD i EVal.nan ≠ EVal.nan) := by
  have hval : changeColVal ((df.getCol column).getD []) cd =
      some (pctCol cd.periods xs) := by
    rw [hxs]
    unfold changeColVal
    rw [htype, if_neg (by decide), if_pos rfl]
    rfl
  refine ⟨pctCol cd.periods xs,
    foldSetCols_getCol_unique _ _ cfg _ cd _ hcd hval huniq, by simp [pctCol], ?_⟩
  intro i hi
  unfold pctCol
  rw [map_range_getD _ _ _ hi]
  refine ⟨?_, ?_, ?_, ?_⟩
  · intro hlt
    rw [if_neg (by omega)]
  · intro hle hnan
    rw [if_pos hle]
    exact pct_entry_nan _ _ hnan
  · intro qa qb hle ha hb hqb
    rw [if_pos hle, ha, hb]
    simp only [EVal.div, EVal.sub, EVal.neg, EVal.add, EVal.mul, if_neg hqb]
    congr 1
    field_simp
    ring
  · intro qa hle ha hb hqa
    rw [if_pos hle, ha, hb, pct_entry_zero_denom qa hqa]
    refine ⟨rfl, ?_⟩
    by_cases h0 : 0 < qa
    · rw [if_pos h0]
      decide
    · rw [if_neg h0]
      decide

/-- Witness for C8 as amended, at a concrete panel: x = [100, 110] with a
1-period percent change gives 10 percent at row 1 by the formula. -/
theorem calculate_changes_pct_spec_witness :
    ∃ ps, (calculate_changes [⟨"pct1", "pct_change", 1⟩]
        ⟨[0, 1], [("x", [EVal.num 100, EVal.num 110])]⟩ "x").getCol "x_pct1" = some ps
      ∧ ps.getD 1 EVal.nan = EVal.num ((110 - 100) / 100 * 100) := by
  obtain ⟨ps, h1, _, h3⟩ := calculate_changes_pct_spec [⟨"pct1", "pct_change", 1⟩]
    ⟨[0, 1], [("x", [EVal.num 100, EVal.num 110])]⟩ "x"
    [EVal.num 100, EVal.num 110] rfl ⟨"pct1", "pct_change", 1⟩ (by decide) rfl
    (by decide)
  exact ⟨ps, h1, (h3 1 (by norm_num)).2.2.1 110 100 (by norm_num) rfl rfl (by norm_num)⟩

/-- C8 counterexample: with x = [0, 5] and a 1-period percent change, the
row-1 denominator is zero and the computed value is positive infinity — a
present value — where the claim requires "no value". -/
theorem calculate_changes_pct_zero_denominator :
    ((calculate_changes [⟨"pct1", "pct_change", 1⟩]
        ⟨[0, 1], [("x", [EVal.num 0, EVal.num 5])]⟩ "x").getCol "x_pct1" =
      some [EVal.nan, EVal.pinf])
    ∧ EVal.pinf ≠ EVal.nan := by
  constructor
  · norm_num [calculate_changes, foldSetCols, changeColVal, pctCol, DFrame.getCol,
      DFrame.setCol, assocSet, List.lookup, EVal.div, EVal.sub, EVal.neg, EVal.add,
      EVal.mul, show List.range 2 = [0, 1] from rfl,
      show ("x" == "x") = true from rfl,
      show ("x_pct1" == "x" ++ "_" ++ "pct1") = true from rfl]
  · decide

theorem lookup_append {β : Type} (l₁ l₂ : List (String × β)) (k : String) :
    (l₁ ++ l₂).lookup k =
      (match l₁.lookup k with
       | some v => some v
       | none => l₂.lookup k) := by
  induction l₁ with
  | nil => rfl
  | cons p rest ih =>
      obtain ⟨k', v'⟩ := p
      cases hk : (k == k') <;> simp [List.lookup, hk, ih]

theorem ctx_foldl_lookup (df : DFrame) (key : String) (ld : Int) :
    ∀ (L : List String) (ctx₀ : List (String × EVal)),
      L.Nodup →
      (∀ s ∈ L, ctx₀.lookup s = none) →
      ∀ s,
        (L.foldl (fun ctx suffix =>
          match contextEntry df key ld suffix with
          | none => ctx
          | some v => ctx ++ [(suffix, v)]) ctx₀).lookup s =
        if s ∈ L then contextEntry df key ld s else ctx₀.lookup s := by
  intro L
  induction L with
  | nil =>
      intro ctx₀ _ _ s
      simp
  | cons a rest ih =>
      intro ctx₀ hnd hdisj s
      have ha : a ∉ rest := (List.nodup_cons.mp hnd).1
      have hrest_nd : rest.Nodup := (List.nodup_cons.mp hnd).2
      simp only [List.foldl_cons]
      have hstep : ∀ t, t ≠ a →
          ((match contextEntry df key ld a with
            | none => ctx₀
            | some v => ctx₀ ++ [(a, v)]).lookup t) = ctx₀.lookup t := by
        intro t ht
        rcases hv : contextEntry df key ld a with _ | v
        · rfl
        · rw [lookup_append]
          rcases h0 : ctx₀.lookup t with _ | w
          · have hb : (t == a) = false := beq_eq_false_iff_ne.mpr ht
            simp [List.lookup, hb]
          · rfl
      have hdisj₁ : ∀ t ∈ rest,
          ((match contextEntry df key ld a with
            | none => ctx₀
            | some v => ctx₀ ++ [(a, v)]).lookup t) = none := by
        intro t ht
        rw [hstep t (fun e => ha (e ▸ ht))]
        exact hdisj t (List.mem_cons_of_mem a ht)
      rw [ih _ hrest_nd hdisj₁ s]
      by_cases hsr : s ∈ rest
      · rw [if_pos hsr, if_pos (List.mem_cons_of_mem a hsr)]
      · rw [if_neg hsr]
        by_cases hsa : s = a
        · subst hsa
          rw [if_pos (List.mem_cons_self s rest)]
          rcases hv : contextEntry df key ld s with _ | v
          · exact hdisj s (List.mem_cons_self s rest)
          · show (ctx₀ ++ [(s, v)]).lookup s = some v
            rw [lookup_append, hdisj s (List.mem_cons_self s rest)]
            simp [List.lookup]
        · rw [if_neg (by simp [hsa, hsr])]
          exact hstep s hsa

theorem pairwise_fst_zip {α β : Type} (R : α → α → Prop) :
    ∀ (l : List α) (r : List β), l.Pairwise R →
      (l.zip r).Pairwise (fun p q => R p.1 q.1) := by
  intro l
  induction l with
  | nil =>
      intro r _
      simp
  | cons a rest ih =>
      intro r h
      cases r with
      | nil => simp
      | cons b rrest =>
          rw [List.pairwise_cons] at h
          simp only [List.zip_cons_cons, List.pairwise_cons]
          exact ⟨fun p hp => h.1 p.1 (List.of_mem_zip hp).1, ih rrest h.2⟩

theorem mem_le_getLast :
    ∀ (l : List (Int × EVal)), l.Pairwise (fun p q => p.1 < q.1) →
      ∀ p ∈ l, ∀ last, l.getLast? = some last → p.1 ≤ last.1 := by
  intro l
  induction l with
  | nil =>
      intro _ p hp
      cases hp
  | cons a rest ih =>
      intro hpw p hp last hlast
      cases rest with
      | nil =>
          rcases List.mem_cons.mp hp with h | h
          · subst h
            simp only [List.getLast?_singleton, Option.some.injEq] at hlast
            rw [hlast]
          · cases h
      | cons b rrest =>
          rw [List.getLast?_cons_cons] at hlast
          have hlast_mem : last ∈ b :: rrest := by
            obtain ⟨l', hl'⟩ := List.getLast?_eq_some_iff.mp hlast
            rw [hl']
            simp
          rcases List.mem_cons.mp hp with h | h
          · subst h
            exact le_of_lt ((List.pairwise_cons.mp hpw).1 last hlast_mem)
          · exact ih (List.pairwise_cons.mp hpw).2 p h last hlast

/-- C6: when the alert's metric column has a present value, the context maps
"value" to the column's value at its latest present date (the last entry of
the dropna view, maximal among present dates by sortedness of the index),
and maps each stat suffix whose column exists to the stat's value on exactly
that latest date when present there, and otherwise to the most recent
present value anywhere in the stat column (absent only when the stat column
has no present value at all). -/
theorem get_alert_context_spec (df : DFrame) (key : String) (xs : List EVal)
    (hxs : df.getCol key = some xs) (ld : Int) (lv : EVal)
    (hlast : (dropnaPairs df.dates xs).getLast? = some (ld, lv))
    (hsorted : df.dates.Pairwise (· < ·)) :
    (get_alert_context key df).lookup "value" = some lv
    ∧ (∀ p ∈ dropnaPairs df.dates xs, p.1 ≤ ld)
    ∧ ∀ s ∈ all_suffixes, ∀ cv, df.getCol (key ++ "_" ++ s) = some cv →
        (get_alert_context key df).lookup s =
          (if !(valueAtDate df.dates cv ld).isNA
           then some (valueAtDate df.dates cv ld)
           else ((dropnaPairs df.dates cv).getLast?).map Prod.snd) := by
  have hdisj0 : ∀ s ∈ all_suffixes, List.lookup s [("value", lv)] = none := by
    intro s hs
    fin_cases hs <;> rfl
  have hfold := ctx_foldl_lookup df key ld all_suffixes [("value", lv)]
    (by decide) hdisj0
  have hctx : get_alert_context key df =
      all_suffixes.foldl (fun ctx suffix =>
        match contextEntry df key ld suffix with
        | none => ctx
        | some v => ctx ++ [(suffix, v)]) [("value", lv)] := by
    unfold get_alert_context
    simp only [hxs, hlast]
  refine ⟨?_, ?_, ?_⟩
  · rw [hctx, hfold "value", if_neg (by decide)]
    rfl
  · intro p hp
    have hpw : (dropnaPairs df.dates xs).Pairwise (fun p q => p.1 < q.1) :=
      (pairwise_fst_zip (· < ·) df.dates xs hsorted).filter _
    exact mem_le_getLast _ hpw p hp (ld, lv) hlast
  · intro s hs cv hcv
    rw [hctx, hfold s, if_pos hs]
    unfold contextEntry
    rw [hcv]

/-- Witness for C6 at a concrete panel: the metric m has value 3 at its
latest date 2, while m_d5 is present only at date 0 (two rows earlier), so
the context's d5 falls back to that most recent computable value 7. -/
theorem get_alert_context_spec_witness :
    (get_alert_context "m"
      ⟨[0, 1, 2], [("m", [EVal.num 1, EVal.num 2, EVal.num 3]),
                   ("m_d5", [EVal.num 7, EVal.nan, EVal.nan])]⟩).lookup "value" =
        some (EVal.num 3)
    ∧ (get_alert_context "m"
      ⟨[0, 1, 2], [("m", [EVal.num 1, EVal.num 2, EVal.num 3]),
                   ("m_d5", [EVal.num 7, EVal.nan, EVal.nan])]⟩).lookup "d5" =
        some (EVal.num 7) := by
  obtain ⟨h1, _, h3⟩ := get_alert_context_spec
    ⟨[0, 1, 2], [("m", [EVal.num 1, EVal.num 2, EVal.num 3]),
                 ("m_d5", [EVal.num 7, EVal.nan, EVal.nan])]⟩ "m"
    [EVal.num 1, EVal.num 2, EVal.num 3] rfl 2 (EVal.num 3) (by decide)
    (by decide)
  refine ⟨h1, ?_⟩
  rw [h3 "d5" (by decide) [EVal.num 7, EVal.nan, EVal.nan] rfl]
  decide

theorem ffillGo_length : ∀ (xs : List EVal) (c : EVal), (ffillGo c xs).length = xs.length := by
  intro xs
  induction xs with
  | nil => intro c; rfl
  | cons x rest ih =>
      intro c
      simp [ffillGo, ih]

theorem ffillGo_getD :
    ∀ (xs : List EVal) (c : EVal) (k : Nat), k < xs.length →
      (ffillGo c xs).getD k EVal.nan =
        (xs.take (k + 1)).foldl (fun acc x => if x.isNA then acc else x) c := by
  intro xs
  induction xs with
  | nil =>
      intro c k hk
      cases hk
  | cons x rest ih =>
      intro c k hk
      cases k with
      | zero => simp [ffillGo]
      | succ k =>
          have hk' : k < rest.length := by simpa using hk
          simp only [ffillGo, List.getD_cons_succ, List.take_succ_cons, List.foldl_cons]
          exact ih (if x.isNA then c else x) k hk'

theorem foldl_specFill_no_match (d : Int) :
    ∀ (pairs : List (Int × EVal)) (acc : EVal),
      (∀ p ∈ pairs, ¬(p.1 ≤ d ∧ p.2.isNA = false)) →
      pairs.foldl (fun acc p => if p.1 ≤ d ∧ p.2.isNA = false then p.2 else acc) acc = acc := by
  intro pairs
  induction pairs with
  | nil => intro acc _; rfl
  | cons p rest ih =>
      intro acc h
      simp only [List.foldl_cons]
      rw [if_neg (h p (List.mem_cons_self p rest))]
      exact ih acc (fun q hq => h q (List.mem_cons_of_mem p hq))

theorem specFill_no_match (pairs : List (Int × EVal)) (d : Int)
    (h : ∀ p ∈ pairs, ¬(p.1 ≤ d ∧ p.2.isNA = false)) : specFill pairs d = EVal.nan :=
  foldl_specFill_no_match d pairs EVal.nan h

theorem specFill_congr_step (d : Int) :
    ∀ (pairs : List (Int × EVal)),
      (∀ p ∈ pairs, p.1 = d + 1 → p.2.isNA = true) →
      specFill pairs (d + 1) = specFill pairs d := by
  have haux : ∀ (pairs : List (Int × EVal)) (acc : EVal),
      (∀ p ∈ pairs, p.1 = d + 1 → p.2.isNA = true) →
      pairs.foldl (fun acc p => if p.1 ≤ d + 1 ∧ p.2.isNA = false then p.2 else acc) acc =
      pairs.foldl (fun acc p => if p.1 ≤ d ∧ p.2.isNA = false then p.2 else acc) acc := by
    intro pairs
    induction pairs with
    | nil => intro acc _; rfl
    | cons p rest ih =>
        intro acc h
        simp only [List.foldl_cons]
        have hcond : (p.1 ≤ d + 1 ∧ p.2.isNA = false) ↔ (p.1 ≤ d ∧ p.2.isNA = false) := by
          by_cases he : p.1 = d + 1
          · have : p.2.isNA = true := h p (List.mem_cons_self p rest) he
            constructor
            · intro hc
              rw [this] at hc
              cases hc.2
            · intro hc
              omega
          · constructor
            · intro hc
              exact ⟨by omega, hc.2⟩
            · intro hc
              exact ⟨by omega, hc.2⟩
        by_cases hc : p.1 ≤ d + 1 ∧ p.2.isNA = false
        · rw [if_pos hc, if_pos (hcond.mp hc)]
          exact ih p.2 (fun q hq => h q (List.mem_cons_of_mem p hq))
        · rw [if_neg hc, if_neg (fun hcc => hc (hcond.mpr hcc))]
          exact ih acc (fun q hq => h q (List.mem_cons_of_mem p hq))
  intro pairs h
  exact haux pairs EVal.nan h

theorem specFill_lookup_present (d : Int) :
    ∀ (pairs : List (Int × EVal)),
      pairs.Pairwise (fun p q => p.1 < q.1) →
      ∀ v : EVal, pairs.lookup d = some v → v.isNA = false →
      ∀ acc : EVal,
        pairs.foldl (fun acc p => if p.1 ≤ d ∧ p.2.isNA = false then p.2 else acc) acc = v := by
  intro pairs
  induction pairs with
  | nil =>
      intro _ v hl
      cases hl
  | cons p rest ih =>
      intro hpw v hl hv acc
      simp only [List.foldl_cons]
      rcases hb : (d == p.1) with _ | _
      · simp only [List.lookup, hb] at hl
        have hne : d ≠ p.1 := by
          intro e
          rw [e] at hb
          simp at hb
        exact ih (List.pairwise_cons.mp hpw).2 v hl hv _
      · simp only [List.lookup, hb] at hl
        have he : p.1 = d := by
          have := beq_iff_eq.mp hb
          omega
        injection hl with hl
        subst hl
        rw [if_pos ⟨le_of_eq he, hv⟩]
        apply foldl_specFill_no_match
        intro q hq hc
        have : p.1 < q.1 := (List.pairwise_cons.mp hpw).1 q hq
        omega

theorem lookup_none_ne {β : Type} (k : Int) :
    ∀ (l : List (Int × β)), l.lookup k = none → ∀ p ∈ l, p.1 ≠ k := by
  intro l
  induction l with
  | nil =>
      intro _ p hp
      cases hp
  | cons q rest ih =>
      intro h p hp
      rcases hb : (k == q.1) with _ | _
      · simp only [List.lookup, hb] at h
        rcases List.mem_cons.mp hp with he | he
        · subst he
          intro hc
          rw [hc] at hb
          simp at hb
        · exact ih h p he
      · simp only [List.lookup, hb] at h
        cases h

theorem lookup_unique_pairwise {β : Type} (e : Int) :
    ∀ (l : List (Int × β)), l.Pairwise (fun p q => p.1 < q.1) →
      ∀ v, l.lookup e = some v → ∀ p ∈ l, p.1 = e → p.2 = v := by
  intro l
  induction l with
  | nil =>
      intro _ v hl
      cases hl
  | cons q rest ih =>
      intro hpw v hl p hp he
      rcases hb : (e == q.1) with _ | _
      · simp only [List.lookup, hb] at hl
        rcases List.mem_cons.mp hp with hm | hm
        · subst hm
          rw [he] at hb
          simp at hb
        · exact ih (List.pairwise_cons.mp hpw).2 v hl p hm he
      · simp only [List.lookup, hb] at hl
        have hq : q.1 = e := by
          have := beq_iff_eq.mp hb
          omega
        rcases List.mem_cons.mp hp with hm | hm
        · subst hm
          injection hl
        · have : q.1 < p.1 := (List.pairwise_cons.mp hpw).1 p hm
          omega

theorem ffill_asfreq_col (dates : List Int) (col : List EVal) (first : Int)
    (hfirst : dates.head? = some first)
    (hsorted : dates.Pairwise (· < ·)) (hlen : col.length = dates.length) :
    ∀ (n k : Nat), k < n →
      (ffillList ((List.range n).map (fun (j : Nat) =>
        ((dates.zip col).lookup (first + (j : Int))).getD EVal.nan))).getD k EVal.nan =
      specFill (dates.zip col) (first + (k : Int)) := by
  have hpw : (dates.zip col).Pairwise (fun p q => p.1 < q.1) :=
    pairwise_fst_zip (· < ·) dates col hsorted
  obtain ⟨dtail, rfl⟩ : ∃ dtail, dates = first :: dtail := by
    cases dates with
    | nil => cases hfirst
    | cons d0 dtail =>
        injection hfirst with h
        exact ⟨dtail, by rw [h]⟩
  obtain ⟨c0, ctail, rfl⟩ : ∃ c0 ctail, col = c0 :: ctail := by
    cases col with
    | nil => cases hlen
    | cons c0 ctail => exact ⟨c0, ctail, rfl⟩
  have hlookup0 : ((first :: dtail).zip (c0 :: ctail)).lookup first = some c0 := by
    simp [List.zip_cons_cons, List.lookup]
  have hmain : ∀ k : Nat,
      (List.range (k + 1)).foldl
        (fun acc (j : Nat) =>
          if ((((first :: dtail).zip (c0 :: ctail)).lookup (first + (j : Int))).getD
              EVal.nan).isNA then acc
          else (((first :: dtail).zip (c0 :: ctail)).lookup (first + (j : Int))).getD
              EVal.nan) EVal.nan =
      specFill ((first :: dtail).zip (c0 :: ctail)) (first + (k : Int)) := by
    intro k
    induction k with
    | zero =>
        rw [show List.range 1 = [0] from rfl]
        simp only [List.foldl_cons, List.foldl_nil, Nat.cast_zero, add_zero]
        rw [hlookup0]
        simp only [Option.getD_some]
        rcases hc0 : c0.isNA with _ | _
        · rw [if_neg (by decide)]
          exact (specFill_lookup_present first _ hpw c0 hlookup0 hc0 EVal.nan).symm
        · rw [if_pos rfl]
          refine (specFill_no_match _ _ ?_).symm
          intro p hp hcond
          rcases List.mem_cons.mp hp with hm | hm
          · rw [hm] at hcond
            simp only at hcond
            rw [hc0] at hcond
            rcases hcond with ⟨_, hcc⟩
            cases hcc
          · have : first < p.1 := (List.pairwise_cons.mp hpw).1 p hm
            omega
    | succ k ih =>
        rw [List.range_succ, List.foldl_append, ih]
        simp only [List.foldl_cons, List.foldl_nil]
        have hcast : first + ((k + 1 : Nat) : Int) = first + (k : Int) + 1 := by
          push_cast
          ring
        rw [hcast]
        rcases hl : (((first :: dtail).zip (c0 :: ctail)).lookup
            (first + (k : Int) + 1)) with _ | v
        · simp only [Option.getD_none, EVal.isNA]
          rw [if_pos trivial]
          refine (specFill_congr_step _ _ ?_).symm
          intro p hp he
          exact absurd he (lookup_none_ne _ _ hl p hp)
        · simp only [Option.getD_some]
          rcases hv : v.isNA with _ | _
          · rw [if_neg (by decide)]
            exact (specFill_lookup_present _ _ hpw v hl hv EVal.nan).symm
          · rw [if_pos rfl]
            refine (specFill_congr_step _ _ ?_).symm
            intro p hp he
            exact (congrArg EVal.isNA
              (lookup_unique_pairwise _ _ hpw v hl p hp he)).trans hv
  intro n k hk
  rw [ffillList, ffillGo_getD _ _ _ (by simpa using hk)]
  rw [← List.map_take, List.take_range, min_eq_left (by omega), List.foldl_map]
  exact hmain k

/-- C9: with forward-fill enabled the returned panel's date axis is the
contiguous daily calendar from the first to the last observed date, and
every entry of every column equals the column's most recent present value at
or before that entry's date (and is NaN only when the column has no present
value up to that date). -/
theorem load_base_data_ffill_spec (df : DFrame) (first last : Int)
    (hfirst : df.dates.head? = some first) (hlast : df.dates.getLast? = some last)
    (hsorted : df.dates.Pairwise (· < ·))
    (halign : ∀ c ∈ df.cols, c.2.length = df.dates.length) :
    (load_base_data df true).dates =
      (List.range ((last - first).toNat + 1)).map (fun (k : Nat) => first + (k : Int))
    ∧ ∀ n v, (n, v) ∈ df.cols →
        ∃ v', (n, v') ∈ (load_base_data df true).cols
          ∧ v'.length = (last - first).toNat + 1
          ∧ ∀ k < (last - first).toNat + 1,
              v'.getD k EVal.nan = specFill (df.dates.zip v) (first + (k : Int)) := by
  have hne : df.dates.isEmpty = false := by
    cases hd : df.dates with
    | nil => rw [hd] at hfirst; cases hfirst
    | cons a l => rfl
  have hload : load_base_data df true = ffillFrame (asfreqDaily df) := by
    unfold load_base_data
    rw [hne]
    rfl
  have hasf : asfreqDaily df =
      ⟨(List.range ((last - first).toNat + 1)).map (fun (k : Nat) => first + (k : Int)),
       df.cols.map (fun c =>
         (c.1, (List.range ((last - first).toNat + 1)).map (fun (k : Nat) =>
           ((df.dates.zip c.2).lookup (first + (k : Int))).getD EVal.nan)))⟩ := by
    unfold asfreqDaily
    rw [hfirst, hlast]
  constructor
  · rw [hload, hasf]
    rfl
  · intro n v hmem
    refine ⟨ffillList ((List.range ((last - first).toNat + 1)).map (fun (k : Nat) =>
      ((df.dates.zip v).lookup (first + (k : Int))).getD EVal.nan)), ?_, ?_, ?_⟩
    · rw [hload, hasf]
      show _ ∈ (DFrame.mk _ _).cols.map _
      simp only [ffillFrame, List.map_map]
      exact List.mem_map_of_mem
        (fun c => (c.1, ffillList ((List.range ((last - first).toNat + 1)).map (fun (k : Nat) =>
          ((df.dates.zip c.2).lookup (first + (k : Int))).getD EVal.nan)))) hmem
    · rw [ffillList, ffillGo_length]
      simp
    · intro k hk
      exact ffill_asfreq_col df.dates v first hfirst hsorted
        (halign (n, v) hmem) _ k hk

/-- Witness for C9: dates 0 and 2 with column x = [1, NaN] produce the daily
axis [0, 1, 2] and the gap at date 1 is filled with the value from date 0. -/
theorem load_base_data_ffill_spec_witness :
    (load_base_data ⟨[0, 2], [("x", [EVal.num 1, EVal.nan])]⟩ true).dates =
      (List.range 3).map (fun (k : Nat) => (0 : Int) + (k : Int))
    ∧ ∃ v', ("x", v') ∈ (load_base_data ⟨[0, 2], [("x", [EVal.num 1, EVal.nan])]⟩ true).cols
        ∧ v'.getD 1 EVal.nan = EVal.num 1 := by
  obtain ⟨h1, h2⟩ := load_base_data_ffill_spec ⟨[0, 2], [("x", [EVal.num 1, EVal.nan])]⟩
    0 2 rfl (by decide) (by decide) (by decide)
  refine ⟨h1, ?_⟩
  obtain ⟨v', hv1, _, hv3⟩ := h2 "x" [EVal.num 1, EVal.nan] (by decide)
  refine ⟨v', hv1, ?_⟩
  rw [hv3 1 (by decide)]
  decide

theorem heapFoldSet_preserves {α : Type} (f : DFrame → α → Option DFrame) (r : Nat) :
    ∀ (cfg : List α) (hh : Heap) (i : Nat), i ≠ r →
      (heapFoldSet f r cfg hh)[i]? = hh[i]? := by
  intro cfg
  induction cfg with
  | nil =>
      intro hh i _
      rfl
  | cons cd rest ih =>
      intro hh i hi
      simp only [heapFoldSet, List.foldl_cons]
      rcases hv : f (hh.getD r ⟨[], []⟩) cd with _ | v
      · exact ih hh i hi
      · have hstep := ih (hh.set r v) i hi
        simp only [heapFoldSet] at hstep
        rw [hstep]
        exact List.getElem?_set_ne (fun e => hi e.symm)

theorem heapFoldSet_value {α : Type} (f : DFrame → α → Option DFrame) (r : Nat) :
    ∀ (cfg : List α) (hh : Heap), r < hh.length →
      (heapFoldSet f r cfg hh)[r]? =
        some (cfg.foldl (fun acc cd =>
          match f acc cd with
          | some v => v
          | none => acc) (hh.getD r ⟨[], []⟩)) := by
  intro cfg
  induction cfg with
  | nil =>
      intro hh hr
      simp only [heapFoldSet, List.foldl_nil]
      rw [List.getD_eq_getElem?_getD]
      rcases hx : hh[r]? with _ | x
      · have : hh.length ≤ r := by
          by_contra hc
          rw [List.getElem?_eq_getElem (by omega)] at hx
          cases hx
        omega
      · rfl
  | cons cd rest ih =>
      intro hh hr
      simp only [heapFoldSet, List.foldl_cons]
      rcases hv : f (hh.getD r ⟨[], []⟩) cd with _ | v
      · exact ih hh hr
      · have hr' : r < (hh.set r v).length := by simpa using hr
        have hstep := ih (hh.set r v) hr'
        simp only [heapFoldSet] at hstep
        rw [hstep]
        have hget : (hh.set r v).getD r ⟨[], []⟩ = v := by
          rw [List.getD_eq_getElem?_getD, List.getElem?_set_self hr]
          rfl
        rw [hget]

theorem foldl_eq_of_step_eq {α β : Type} (f g : β → α → β) (h : ∀ b a, f b a = g b a) :
    ∀ (l : List α) (init : β), l.foldl f init = l.foldl g init := by
  intro l
  induction l with
  | nil => intro init; rfl
  | cons a rest ih =>
      intro init
      simp only [List.foldl_cons, h, ih]

/-- C10: replayed against the reference heap, calculate_derived,
calculate_changes and calculate_rolling never write through the caller's
reference: the input frame's heap cell is unchanged, each function returns a
reference distinct from the input's, and the freshly allocated cell holds
exactly the corresponding pure result — for calculate_derived a copy of the
input with the derived columns applied, for calculate_changes and
calculate_rolling a fresh table of only the new stat columns on the input's
date axis. -/
theorem metrics_functions_no_input_mutation (h : Heap) (dfr : Nat) (hdfr : dfr < h.length)
    (defs : List DerivedDef) (cfg : List ChangeDef) (rcfg : List RollingDef)
    (column : String) (sq : ℚ → ℚ) :
    ((calculate_derivedH defs h dfr).1[dfr]? = h[dfr]?
      ∧ (calculate_derivedH defs h dfr).2 ≠ dfr
      ∧ (calculate_derivedH defs h dfr).1[(calculate_derivedH defs h dfr).2]? =
          some (calculate_derived defs (h.getD dfr ⟨[], []⟩)))
    ∧ ((calculate_changesH cfg column h dfr).1[dfr]? = h[dfr]?
      ∧ (calculate_changesH cfg column h dfr).2 ≠ dfr
      ∧ (calculate_changesH cfg column h dfr).1[(calculate_changesH cfg column h dfr).2]? =
          some (calculate_changes cfg (h.getD dfr ⟨[], []⟩) column))
    ∧ ((calculate_rollingH sq rcfg column h dfr).1[dfr]? = h[dfr]?
      ∧ (calculate_rollingH sq rcfg column h dfr).2 ≠ dfr
      ∧ (calculate_rollingH sq rcfg column h dfr).1[(calculate_rollingH sq rcfg column h dfr).2]? =
          some (calculate_rolling sq rcfg (h.getD dfr ⟨[], []⟩) column)) := by
  have hne : dfr ≠ h.length := by omega
  have happ : ∀ df : DFrame, (h ++ [df])[dfr]? = h[dfr]? := by
    intro df
    exact List.getElem?_append_left hdfr
  have hlen : ∀ df : DFrame, h.length < (h ++ [df]).length := by
    intro df
    simp
  have hgetnew : ∀ df : DFrame, (h ++ [df]).getD h.length ⟨[], []⟩ = df := by
    intro df
    rw [List.getD_eq_getElem?_getD, List.getElem?_append_right (le_refl h.length)]
    simp
  have hne' : h.length ≠ dfr := by omega
  refine ⟨⟨?_, hne', ?_⟩, ⟨?_, hne', ?_⟩, ⟨?_, hne', ?_⟩⟩
  · show (heapFoldSet (fun acc d => some (derivedStep acc d)) h.length defs
        (h ++ [h.getD dfr ⟨[], []⟩]))[dfr]? = h[dfr]?
    rw [heapFoldSet_preserves _ _ _ _ _ hne]
    exact happ _
  · show (heapFoldSet (fun acc d => some (derivedStep acc d)) h.length defs
        (h ++ [h.getD dfr ⟨[], []⟩]))[h.length]? =
      some (calculate_derived defs (h.getD dfr ⟨[], []⟩))
    rw [heapFoldSet_value _ _ _ _ (hlen _), hgetnew]
    rfl
  · show (heapFoldSet (fun acc cd =>
        match changeColVal (((h.getD dfr ⟨[], []⟩).getCol column).getD []) cd with
        | some v => some (acc.setCol (column ++ "_" ++ cd.name) v)
        | none => none) h.length cfg
        (h ++ [⟨(h.getD dfr ⟨[], []⟩).dates, []⟩]))[dfr]? = h[dfr]?
    rw [heapFoldSet_preserves _ _ _ _ _ hne]
    exact happ _
  · show (heapFoldSet (fun acc cd =>
        match changeColVal (((h.getD dfr ⟨[], []⟩).getCol column).getD []) cd with
        | some v => some (acc.setCol (column ++ "_" ++ cd.name) v)
        | none => none) h.length cfg
        (h ++ [⟨(h.getD dfr ⟨[], []⟩).dates, []⟩]))[h.length]? =
      some (calculate_changes cfg (h.getD dfr ⟨[], []⟩) column)
    rw [heapFoldSet_value _ _ _ _ (hlen _), hgetnew]
    congr 1
    refine foldl_eq_of_step_eq _ _ (fun b cd => ?_) cfg _
    rcases changeColVal (((h.getD dfr ⟨[], []⟩).getCol column).getD []) cd with _ | v <;> rfl
  · show (heapFoldSet (fun acc rd =>
        match rollingColVal sq (((h.getD dfr ⟨[], []⟩).getCol column).getD []) rd with
        | some v => some (acc.setCol (column ++ "_" ++ rd.name) v)
        | none => none) h.length rcfg
        (h ++ [⟨(h.getD dfr ⟨[], []⟩).dates, []⟩]))[dfr]? = h[dfr]?
    rw [heapFoldSet_preserves _ _ _ _ _ hne]
    exact happ _
  · show (heapFoldSet (fun acc rd =>
        match rollingColVal sq (((h.getD dfr ⟨[], []⟩).getCol column).getD []) rd with
        | some v => some (acc.setCol (column ++ "_" ++ rd.name) v)
        | none => none) h.length rcfg
        (h ++ [⟨(h.getD dfr ⟨[], []⟩).dates, []⟩]))[h.length]? =
      some (calculate_rolling sq rcfg (h.getD dfr ⟨[], []⟩) column)
    rw [heapFoldSet_value _ _ _ _ (hlen _), hgetnew]
    congr 1
    refine foldl_eq_of_step_eq _ _ (fun b rd => ?_) rcfg _
    rcases rollingColVal sq (((h.getD dfr ⟨[], []⟩).getCol column).getD []) rd with _ | v <;> rfl

/-- Witness for C10 on a one-frame heap: the input cell is untouched by all
three functions and the derived result cell holds the pure result. -/
theorem metrics_functions_no_input_mutation_witness :
    (calculate_derivedH [] [⟨[0], [("x", [EVal.num 1])]⟩] 0).1[0]? =
      ([⟨[0], [("x", [EVal.num 1])]⟩] : Heap)[0]?
    ∧ (calculate_changesH [] "x" [⟨[0], [("x", [EVal.num 1])]⟩] 0).2 ≠ 0 :=
  ⟨((metrics_functions_no_input_mutation [⟨[0], [("x", [EVal.num 1])]⟩] 0 (by decide)
      [] [] [] "x" (fun q => q)).1).1,
   ((metrics_functions_no_input_mutation [⟨[0], [("x", [EVal.num 1])]⟩] 0 (by decide)
      [] [] [] "x" (fun q => q)).2).1.2.1⟩

end FedMonitor
